import Mathlib

/-!
# Capacitive multi-pad touch engine (`services/multitouch.c`)

A shallow embedding of `services/multitouch.c` (pin reader, sliding-median
sample window, baseline tracker, touch debouncer, swipe detector, calibration,
initialisation and per-tick processing) and of the glow-pattern macros of
`inc/jd_io.h`, together with proofs of the properties the specification
states about them.

Conventions of the embedding:

* C arrays are `List`s, indexed with `List.getD` and updated with `List.set`;
* `uint16_t` / `uint32_t` values are `Nat`, `int` / `int8_t` values are `Int`;
  wrap-around is made explicit where the C code can reach it
  (`to_int8`, `sub_u32`, `to_int32`);
* a `for` loop becomes a recursive function over the number of iterations
  that remain, so every definition is total and computable;
* values that come from the hardware or from code outside these sources
  (the results of `read_pin_avg`, the clock, `jd_should_sample`) are
  parameters of the functions that use them.
-/

namespace Multitouch

/-! ## Constants (`#define`s of `multitouch.c`) -/

def PRESS_THRESHOLD : Int := 70
def PRESS_TICKS : Int := 3
def SAMPLE_WINDOW : Nat := 19
def BASELINE_SAMPLES : Nat := 20
def BASELINE_SUPER_SAMPLES : Nat := 10
def SWIPE_DURATION_MIN : Int := 10
def SWIPE_DURATION_MAX : Int := 500
def SWIPE_DELTA_MIN : Int := 10
def SWIPE_DELTA_MAX : Int := 500

/-! ## `sort` and `add_sample` -/

/-- Body of the inner loop of `sort`:
`if (a[j] < a[j - 1]) { tmp = a[j]; a[j] = a[j - 1]; a[j - 1] = tmp; }`. -/
def sort_swap (a : List Nat) (j : Nat) : List Nat :=
  if a.getD j 0 < a.getD (j - 1) 0 then
    let tmp := a.getD j 0
    (a.set j (a.getD (j - 1) 0)).set (j - 1) tmp
  else a

/-- Inner loop of `sort`: `for (int j = i; j > 0; j--) ...`, started at `j`. -/
def sort_inner : Nat → List Nat → List Nat
  | 0, a => a
  | j + 1, a => sort_inner j (sort_swap a (j + 1))

/-- Outer loop of `sort`: `for (int i = 1; i < n; i++) ...`; the first argument
is the number of iterations that remain (`n - i`), the second is `i`. -/
def sort_outer : Nat → Nat → List Nat → List Nat
  | 0, _, a => a
  | k + 1, i, a => sort_outer k (i + 1) (sort_inner i a)

/-- The function `static void sort(uint16_t *a, int n)`: returns the array after the call. -/
def sort (a : List Nat) (n : Nat) : List Nat :=
  sort_outer (n - 1) 1 a

/-- The function
`static uint16_t add_sample(uint16_t *samples, uint8_t len, uint16_t sample)`.
Returns the contents of `samples` after the call and the returned value.
`rcopy` is the local working copy: `samples[1 .. len-1]` followed by `sample`. -/
def add_sample (samples : List Nat) (len : Nat) (sample : Nat) : List Nat × Nat :=
  let rcopy := ((samples.drop 1).take (len - 1)) ++ [sample]
  let samples' := rcopy ++ samples.drop len
  let sorted := sort rcopy len
  (samples', sorted.getD (len >>> 1) 0)

/-- Pushes `samples` one at a time with `add_sample` into the window `w`:
returns the final window and the list of the values the pushes returned. -/
def push_samples (w : List Nat) (len : Nat) : List Nat → List Nat × List Nat
  | [] => (w, [])
  | s :: ss =>
    let r := add_sample w len s
    let rest := push_samples r.1 len ss
    (rest.1, r.2 :: rest.2)

/-- Reference median, following the words of the specification ("the exact
middle element after sorting"): entry `length / 2` of the ascending sort. -/
def median_ref (l : List Nat) : Nat :=
  (l.insertionSort (· ≤ ·)).getD (l.length / 2) 0

/-- Modelled from the spec: the allocator `jd_alloc` is not part of these
sources; it hands out zero-filled memory, so a freshly allocated window of
`W` entries holds `W` zeros. -/
def fresh_window (W : Nat) : List Nat := List.replicate W 0

/-! ## Pads and engine state -/

/-- The record `typedef struct pin_desc { ... } pin_t`. -/
structure pin_t where
  pin : Nat
  ticks_pressed : Int
  start_press : Nat
  end_press : Nat
  reading : Nat
  readings : List Nat
  baseline_samples : List Nat
  baseline_super_samples : List Nat
  baseline : Nat
  deriving DecidableEq

/-- A zero-filled `pin_t`, as handed out by the allocator. -/
instance : Inhabited pin_t :=
  ⟨{ pin := 0, ticks_pressed := 0, start_press := 0, end_press := 0, reading := 0,
     readings := fresh_window SAMPLE_WINDOW,
     baseline_samples := fresh_window BASELINE_SAMPLES,
     baseline_super_samples := fresh_window BASELINE_SUPER_SAMPLES,
     baseline := 0 }⟩

/-- The record `struct srv_state` (the fields of `SENSOR_COMMON` are not used here). -/
structure srv_state where
  numpins : Nat
  num_baseline_samples : Nat
  pins : List pin_t
  readings : List Int
  nextSample : Nat
  next_baseline_sample : Nat
  deriving DecidableEq

/-! ## Touch debouncer (the counter part of `update`) -/

/-- Conversion of an `int` to `int8_t` (two's complement wrap-around). -/
def to_int8 (x : Int) : Int := (x + 128) % 256 - 128

/-- The test `p->reading - p->baseline > PRESS_THRESHOLD`; both operands are
`uint16_t`, promoted to `int`, so the difference is the signed one. -/
def above_threshold (reading baseline : Nat) : Bool :=
  decide ((reading : Int) - (baseline : Int) > PRESS_THRESHOLD)

/-- The value of `ticks_pressed ± 1` computed in `int` by `p->ticks_pressed++`
/ `p->ticks_pressed--`, before it is stored back into the `int8_t` field. -/
def ticks_unwrapped (ticks_pressed : Int) (reading baseline : Nat) : Int :=
  if above_threshold reading baseline then ticks_pressed + 1 else ticks_pressed - 1

/-- Lines 136-144 of `update`: count up or down, then clamp to
`[0, PRESS_TICKS * 2]`. -/
def update_ticks (ticks_pressed : Int) (reading baseline : Nat) : Int :=
  let t := to_int8 (ticks_unwrapped ticks_pressed reading baseline)
  if t > PRESS_TICKS * 2 then PRESS_TICKS * 2
  else if t < 0 then 0
  else t

/-- The test `p->ticks_pressed >= PRESS_TICKS` (`was_pressed` / `is_pressed`). -/
def pressed (ticks_pressed : Int) : Bool := decide (ticks_pressed ≥ PRESS_TICKS)

/-- Body of the loop of `update` for one pad (lines 130-155). `sample` is the
value `read_pin_avg(p->pin)` returned and `now_ms` the timestamp of the pass.
Returns the pad after the tick, the value stored in `state->readings[i]`, and
whether `detect_swipe` is called for this pad. -/
def update_pin (now_ms : Nat) (sample : Nat) (p : pin_t) : pin_t × Int × Bool :=
  let r := add_sample p.readings SAMPLE_WINDOW sample
  let reading := r.2
  let out : Int := (reading : Int) - (p.baseline : Int)
  let was_pressed := pressed p.ticks_pressed
  let ticks := update_ticks p.ticks_pressed reading p.baseline
  let is_pressed := pressed ticks
  let p1 : pin_t := { p with reading := reading, readings := r.1, ticks_pressed := ticks }
  if is_pressed != was_pressed then
    if is_pressed then ({ p1 with start_press := now_ms }, out, false)
    else ({ p1 with end_press := now_ms }, out, true)
  else (p1, out, false)

/-- A run of sampling ticks of one pad, seen from the debounce counter: each
tick comes with the pad's filtered reading and baseline at that tick. -/
def ticks_run (c : Int) : List (Nat × Nat) → Int
  | [] => c
  | (r, b) :: rest => ticks_run (update_ticks c r b) rest

/-! ## Swipe detector -/

/-- Subtraction of two `uint32_t` values (wraps modulo `2^32`). -/
def sub_u32 (a b : Nat) : Int := ((a : Int) - (b : Int)) % 4294967296

/-- Conversion of a 32-bit value to `int` (two's complement). -/
def to_int32 (x : Int) : Int := (x + 2147483648) % 4294967296 - 2147483648

/-- The local `uint32_t duration = p->end_press - p->start_press`. -/
def press_duration (p : pin_t) : Int := sub_u32 p.end_press p.start_press

/-- The local `int d0 = p->start_press - p0->start_press`. -/
def start_delta (p0 p : pin_t) : Int := to_int32 (sub_u32 p.start_press p0.start_press)

/-- The local `int d1 = p->end_press - p0->end_press`. -/
def end_delta (p0 p : pin_t) : Int := to_int32 (sub_u32 p.end_press p0.end_press)

/-- The block `if (i > 0) { ... }` of `detect_swipe` (lines 103-120) for the
pair `(p0, p)`: `none` when the function returns early, otherwise the new
value of `delta`. -/
def swipe_pair (delta : Int) (p0 p : pin_t) : Option Int :=
  let d0 := start_delta p0 p
  let d1 := end_delta p0 p
  if d0 < 0 then
    if d1 > 0 ∨ delta > 0 then none
    else
      let d0 := to_int32 (-d0)
      let d1 := to_int32 (-d1)
      if ¬(SWIPE_DELTA_MIN ≤ d0 ∧ d0 ≤ SWIPE_DELTA_MAX) ∨
          ¬(SWIPE_DELTA_MIN ≤ d1 ∧ d1 ≤ SWIPE_DELTA_MAX) then none
      else some (-1)
  else
    if d1 < 0 ∨ delta < 0 then none
    else
      if ¬(SWIPE_DELTA_MIN ≤ d0 ∧ d0 ≤ SWIPE_DELTA_MAX) ∨
          ¬(SWIPE_DELTA_MIN ≤ d1 ∧ d1 ≤ SWIPE_DELTA_MAX) then none
      else some 1

/-- The loop of `detect_swipe`: `for (int i = 0; i < state->numpins; ++i)`.
The first argument is the number of iterations that remain, the second is `i`,
the third the local `delta`. `none` is an early `return`; `some delta` is
reaching `jdcon_warn("swp %d", delta)`. -/
def detect_swipe_loop (pins : List pin_t) : Nat → Nat → Int → Option Int
  | 0, _, delta => some delta
  | k + 1, i, delta =>
    let p := pins.getD i default
    let duration := press_duration p
    if ¬(SWIPE_DURATION_MIN ≤ duration ∧ duration ≤ SWIPE_DURATION_MAX) then none
    else if i > 0 then
      match swipe_pair delta (pins.getD (i - 1) default) p with
      | none => none
      | some delta1 => detect_swipe_loop pins k (i + 1) delta1
    else detect_swipe_loop pins k (i + 1) delta

/-- The function `static void detect_swipe(srv_t *state)`: `some delta` when the swipe
`swp delta` is emitted, `none` when nothing is emitted. -/
def detect_swipe (state : srv_state) : Option Int :=
  detect_swipe_loop state.pins state.numpins 0 0

/-- The test on a pad's press duration that `detect_swipe` requires to pass:
`SWIPE_DURATION_MIN <= duration && duration <= SWIPE_DURATION_MAX`. -/
def duration_ok (p : pin_t) : Prop :=
  SWIPE_DURATION_MIN ≤ press_duration p ∧ press_duration p ≤ SWIPE_DURATION_MAX

/-- The adjacent pair `(p0, p)` is a valid step of a swipe in direction `d`:
for `d = 1` both deltas are in `[10, 500]`, for `d = -1` both are in
`[-500, -10]`. -/
def pair_dir (d : Int) (p0 p : pin_t) : Prop :=
  (d = 1 ∧ 10 ≤ start_delta p0 p ∧ start_delta p0 p ≤ 500 ∧
    10 ≤ end_delta p0 p ∧ end_delta p0 p ≤ 500) ∨
  (d = -1 ∧ -500 ≤ start_delta p0 p ∧ start_delta p0 p ≤ -10 ∧
    -500 ≤ end_delta p0 p ∧ end_delta p0 p ≤ -10)

/-- Reduction of a timestamp to `uint32_t`. -/
def u32 (x : Int) : Nat := (x % 4294967296).toNat

/-- A pad with the given press timestamps (all other fields zero). -/
def pad_at (start_press end_press : Int) : pin_t :=
  { (default : pin_t) with start_press := u32 start_press, end_press := u32 end_press }

/-- An engine made of the given pads. -/
def engine_of (pins : List pin_t) : srv_state :=
  { numpins := pins.length, num_baseline_samples := 0, pins := pins,
    readings := List.replicate pins.length 0, nextSample := 0, next_baseline_sample := 0 }

/-! ## Pin reader -/

/-- The loop `for (;;)` of `read_pin` over the acquisition attempts still to
come. An attempt is the pair of the value `adc_read_pin` returned (`int r`)
and the difference `tim_get_micros() - t0` (a `uint64_t`), which the code
stores in `int dur`. The result is the value returned (as `uint16_t`) and the
attempts not yet consumed; `none` means that every attempt given was
discarded, so the loop is still running. -/
def read_pin : List (Nat × Nat) → Option (Nat × List (Nat × Nat))
  | [] => none
  | (r, elapsed) :: rest =>
    let dur := to_int32 (elapsed : Int)
    if dur < 1800 then some (r % 65536, rest) else read_pin rest

/-- The loop `for (int i = 0; i < n; ++i) arr[i] = read_pin(pin);` of
`read_pin_avg`; the first argument is the number of iterations that remain,
`arr` holds the entries filled so far. -/
def read_pin_avg_loop : Nat → List Nat → List (Nat × Nat) → Option (List Nat × List (Nat × Nat))
  | 0, arr, attempts => some (arr, attempts)
  | k + 1, arr, attempts =>
    match read_pin attempts with
    | none => none
    | some (r, rest) => read_pin_avg_loop k (arr ++ [r]) rest

/-- The function `static uint16_t read_pin_avg(uint8_t pin)`, with `n = 3`. -/
def read_pin_avg (attempts : List (Nat × Nat)) : Option (Nat × List (Nat × Nat)) :=
  match read_pin_avg_loop 3 [] attempts with
  | none => none
  | some (arr, rest) => some ((sort arr 3).getD (3 >>> 1) 0, rest)

/-! ## Baseline tracker, calibration, per-tick processing -/

/-- A loop `for (int i = 0; i < state->numpins; ++i) { pin_t *p = &state->pins[i]; ... }`
whose body only writes to `*p`: `f i` is the effect of the body on pad `i`.
The first argument is the number of iterations that remain, the second is `i`. -/
def for_each_pin (f : Nat → pin_t → pin_t) : Nat → Nat → List pin_t → List pin_t
  | 0, _, pins => pins
  | k + 1, i, pins => for_each_pin f k (i + 1) (pins.set i (f i (pins.getD i default)))

/-- Body of the loop of `update_baseline` for one pad (lines 164-170);
`num_baseline_samples` is the counter as already updated by the call. -/
def update_baseline_pin (num_baseline_samples : Nat) (p : pin_t) : pin_t :=
  let r := add_sample p.baseline_samples BASELINE_SAMPLES p.reading
  let tmp := r.2
  let p1 : pin_t := { p with baseline_samples := r.1 }
  if num_baseline_samples = 0 then
    let r2 := add_sample p1.baseline_super_samples BASELINE_SUPER_SAMPLES tmp
    { p1 with baseline_super_samples := r2.1, baseline := r2.2 }
  else p1

/-- The counter update at the start of `update_baseline`: `uint8_t`
increment, then reset to 0 when it reaches `BASELINE_SAMPLES`. -/
def next_baseline_count (num_baseline_samples : Nat) : Nat :=
  let n := (num_baseline_samples + 1) % 256
  if n ≥ BASELINE_SAMPLES then 0 else n

/-- The function `static void update_baseline(srv_t *state)`. -/
def update_baseline (state : srv_state) : srv_state :=
  let n := next_baseline_count state.num_baseline_samples
  { state with
    num_baseline_samples := n
    pins := for_each_pin (fun _ p => update_baseline_pin n p) state.numpins 0 state.pins }

/-- The innermost loop of `calibrate`: `p->reading = read_pin_avg(p->pin)` for
every pad; `reads i` is the value `read_pin_avg` returns for pad `i`. -/
def calibrate_reads (reads : Nat → Nat) (state : srv_state) : srv_state :=
  { state with
    pins := for_each_pin (fun i p => { p with reading := reads i }) state.numpins 0 state.pins }

/-- The loop `for (int j = 0; j < BASELINE_SAMPLES; ++j)` of `calibrate`; the
first argument is the number of iterations that remain, the second is `j`. -/
def calibrate_inner (reads : Nat → Nat → Nat) : Nat → Nat → srv_state → srv_state
  | 0, _, state => state
  | n + 1, j, state =>
    calibrate_inner reads n (j + 1) (update_baseline (calibrate_reads (reads j) state))

/-- The loop `for (int k = 0; k < BASELINE_SUPER_SAMPLES; ++k)` of `calibrate`. -/
def calibrate_outer (reads : Nat → Nat → Nat → Nat) : Nat → Nat → srv_state → srv_state
  | 0, _, state => state
  | n + 1, k, state =>
    calibrate_outer reads n (k + 1) (calibrate_inner (reads k) BASELINE_SAMPLES 0 state)

/-- The function `static void calibrate(srv_t *state)`; `reads k j i` is the
value `read_pin_avg` returns for pad `i` in iteration `(k, j)`. The result is
the state the loops leave and the value that the last line,
`DMESG("calib: %d", state->pins[0].baseline)`, reads: `none` when `pins` has
no element 0 (`numpins = 0`), that is when this read is outside the array. -/
def calibrate (reads : Nat → Nat → Nat → Nat) (state : srv_state) : srv_state × Option Nat :=
  let state1 := calibrate_outer reads BASELINE_SUPER_SAMPLES 0 state
  (state1, if 0 < state1.numpins then some (state1.pins.getD 0 default).baseline else none)

/-- The loop of `update` over the pads. The first argument is the number of
iterations that remain, the second is `i`. The list collects the calls of
`detect_swipe`: the pad index at which it was called and what it emitted. -/
def update_loop (now_ms : Nat) (reads : Nat → Nat) :
    Nat → Nat → srv_state → List (Nat × Option Int) → srv_state × List (Nat × Option Int)
  | 0, _, state, log => (state, log)
  | k + 1, i, state, log =>
    let r := update_pin now_ms (reads i) (state.pins.getD i default)
    let state1 : srv_state :=
      { state with pins := state.pins.set i r.1, readings := state.readings.set i r.2.1 }
    if r.2.2 then update_loop now_ms reads k (i + 1) state1 (log ++ [(i, detect_swipe state1)])
    else update_loop now_ms reads k (i + 1) state1 log

/-- The function `static void update(srv_t *state)`; `now_us` is the value of
`tim_get_micros()` and `reads i` the value `read_pin_avg` returns for pad `i`. -/
def update (now_us : Nat) (reads : Nat → Nat) (state : srv_state) :
    srv_state × List (Nat × Option Int) :=
  update_loop ((now_us >>> 10) % 4294967296) reads state.numpins 0 state []

/-- The function `void multitouch_process(srv_t *state)`. The two calls of
`jd_should_sample` (not part of these sources) are taken as the parameters
`sample_due` and `baseline_due`; the due-time fields they maintain are left
untouched. -/
def multitouch_process (sample_due baseline_due : Bool) (now_us : Nat) (reads : Nat → Nat)
    (state : srv_state) : srv_state × List (Nat × Option Int) :=
  if sample_due then
    let u := update now_us reads state
    if baseline_due then (update_baseline u.1, u.2) else u
  else (state, [])

/-- The loop `while (pins[state->numpins] != 0xff) state->numpins++;` of
`multitouch_init`. `numpins` is a `uint8_t`, so it wraps after 255; the first
argument bounds the number of iterations, and `none` means that the loop has
not met the sentinel within that bound. Reading past the end of the given list
reads the sentinel. -/
def count_pins (pins : List Nat) : Nat → Nat → Option Nat
  | 0, _ => none
  | fuel + 1, numpins =>
    if pins.getD numpins 0xff ≠ 0xff then count_pins pins fuel ((numpins + 1) % 256)
    else some numpins

/-- The function `void multitouch_init(const uint8_t *pins)`: the engine after
initialisation together with the value the last line of `calibrate` reads
from `pins[0]` (`none`: the read is outside the array); the result is `none`
when the sentinel is not among the first 256 entries (the counting loop then
never ends). There is no test of `numpins` and no error path. The pads and the
results buffer come zero-filled from the allocator. -/
def multitouch_init (pins : List Nat) (reads : Nat → Nat → Nat → Nat) :
    Option (srv_state × Option Nat) :=
  match count_pins pins 256 0 with
  | none => none
  | some numpins =>
    let state : srv_state :=
      { numpins := numpins, num_baseline_samples := 0,
        pins := for_each_pin (fun i p => { p with pin := pins.getD i 0xff }) numpins 0
          (List.replicate numpins default),
        readings := List.replicate numpins 0, nextSample := 0, next_baseline_sample := 0 }
    some (calibrate reads state)

/-- One step of the engine after initialisation: a per-sample `update` (with
its clock value and pad readings) or an `update_baseline`. -/
inductive engine_step where
  | sample (now_us : Nat) (reads : Nat → Nat)
  | baseline

/-- The engine state after a sequence of steps. -/
def engine_run (state : srv_state) : List engine_step → srv_state
  | [] => state
  | engine_step.sample now_us reads :: rest => engine_run (update now_us reads state).1 rest
  | engine_step.baseline :: rest => engine_run (update_baseline state) rest

/-- The number of `update_baseline` calls in a sequence of steps. -/
def baseline_calls : List engine_step → Nat
  | [] => 0
  | engine_step.sample _ _ :: rest => baseline_calls rest
  | engine_step.baseline :: rest => baseline_calls rest + 1

/-- The pad has windows of the declared sizes (`SAMPLE_WINDOW`,
`BASELINE_SAMPLES`, `BASELINE_SUPER_SAMPLES`). -/
def pin_wf (p : pin_t) : Prop :=
  p.readings.length = SAMPLE_WINDOW ∧ p.baseline_samples.length = BASELINE_SAMPLES ∧
  p.baseline_super_samples.length = BASELINE_SUPER_SAMPLES

/-- The engine holds `numpins` pads and `numpins` result entries, and every
pad has windows of the declared sizes. -/
def state_wf (state : srv_state) : Prop :=
  state.pins.length = state.numpins ∧ state.readings.length = state.numpins ∧
  ∀ j, j < state.numpins → pin_wf (state.pins.getD j default)

/-! ## Glow patterns (`jd_io.h`) -/

def JD_BLINK_COLOR_OFF : Nat := 0b000
def JD_BLINK_COLOR_RED : Nat := 0b100
def JD_BLINK_COLOR_GREEN : Nat := 0b010
def JD_BLINK_COLOR_BLUE : Nat := 0b001
def JD_BLINK_COLOR_YELLOW : Nat := 0b110
def JD_BLINK_COLOR_MAGENTA : Nat := 0b101
def JD_BLINK_COLOR_CYAN : Nat := 0b011
def JD_BLINK_COLOR_WHITE : Nat := 0b111

/-- The macro `_JD_GLOW_COLOR(g)`: `(((g) >> 0) & 3)`. -/
def _JD_GLOW_COLOR (g : Nat) : Nat := (g >>> 0) &&& 3

/-- The macro `_JD_GLOW_CHANNEL(g)`: `(((g) >> 4) & 3)`. -/
def _JD_GLOW_CHANNEL (g : Nat) : Nat := (g >>> 4) &&& 3

/-- The macro `_JD_GLOW_GAP(g)`: `(((((g) >> 8) & 3) + 1) * (512 << 10))`. -/
def _JD_GLOW_GAP (g : Nat) : Nat := (((g >>> 8) &&& 3) + 1) * (512 <<< 10)

/-- The macro `_JD_GLOW_DURATION(g)`: `(((((g) >> 12) & 3) + 1) * (512 << 10))`. -/
def _JD_GLOW_DURATION (g : Nat) : Nat := (((g >>> 12) &&& 3) + 1) * (512 <<< 10)

/-- The macro `_JD_GLOW_SPEED(g)`: `((((g) >> 16) & 3) * 64)`. -/
def _JD_GLOW_SPEED (g : Nat) : Nat := ((g >>> 16) &&& 3) * 64

/-- The macro `JD_GLOW(speed, duration, gap, channel, color)`, with the
arguments already replaced by the numbers their names stand for. -/
def JD_GLOW (speed duration gap channel color : Nat) : Nat :=
  color ||| (channel <<< 4) ||| (gap <<< 8) ||| (duration <<< 12) ||| (speed <<< 16)

/-- The macro `JD_GLOW_OFF(channel)`: `(JD_GLOW_##channel << 12)`. -/
def JD_GLOW_OFF (channel : Nat) : Nat := channel <<< 12

/-- An engine of one pad shortly before a baseline update: the sample counter
is 19, the pad reads 100 steadily, its level-1 window holds 100 throughout and
its level-2 window holds six times 0 and four times 100, so the baseline is
still 0. -/
def stale_example : srv_state :=
  { numpins := 1, num_baseline_samples := 19,
    pins := [{ pin := 3, ticks_pressed := 6, start_press := 40, end_press := 0, reading := 100,
               readings := List.replicate 19 100,
               baseline_samples := List.replicate 20 100,
               baseline_super_samples := [0, 0, 0, 0, 0, 0, 100, 100, 100, 100],
               baseline := 0 }],
    readings := [100], nextSample := 0, next_baseline_sample := 0 }

/-- The state of an engine of `N` pads after `n` calls of `update_baseline`
during a calibration in which every averaged acquisition returns `r`: the
sample counter is `n % 20`; each pad's level-1 window holds `r` in its last
`min n 20` places and 0 before; its level-2 window holds `r` in its last
`min (n / 20) 10` places and 0 before; and from the first wrap of the counter
on, the baseline is the reference median of the level-2 window. -/
def calib_inv (r N n : Nat) (state : srv_state) : Prop :=
  state.numpins = N ∧ state.pins.length = N ∧ state.num_baseline_samples = n % 20 ∧
  ∀ j, j < N →
    (state.pins.getD j default).readings.length = SAMPLE_WINDOW ∧
    (state.pins.getD j default).baseline_samples
      = List.replicate (20 - min n 20) 0 ++ List.replicate (min n 20) r ∧
    (state.pins.getD j default).baseline_super_samples
      = List.replicate (10 - min (n / 20) 10) 0 ++ List.replicate (min (n / 20) 10) r ∧
    (20 ≤ n → (state.pins.getD j default).baseline
      = median_ref (state.pins.getD j default).baseline_super_samples)

/-! ### Proofs about `sort` -/

theorem sort_swap_append (L : List Nat) (y x : Nat) (R : List Nat) :
    sort_swap (L ++ y :: x :: R) (L.length + 1)
      = if x < y then L ++ x :: y :: R else L ++ y :: x :: R := by
  unfold sort_swap
  have h1 : (L ++ y :: x :: R).getD (L.length + 1) 0 = x := by
    rw [List.getD_eq_getElem?_getD, List.getElem?_append_right (by omega)]
    simp
  have h2 : (L ++ y :: x :: R).getD (L.length + 1 - 1) 0 = y := by
    rw [List.getD_eq_getElem?_getD, List.getElem?_append_right (by omega)]
    simp
  rw [h1, h2]
  split
  · simp [List.set_append_right]
  · rfl

theorem sort_inner_spec (L : List Nat) :
    ∀ (x : Nat) (M R : List Nat), L.Sorted (· ≤ ·) → (x :: M).Sorted (· ≤ ·) →
      (∀ l ∈ L, ∀ m ∈ M, l ≤ m) →
      ∃ S, sort_inner L.length (L ++ x :: (M ++ R)) = S ++ R ∧ S.Sorted (· ≤ ·) ∧
        S.Perm (L ++ x :: M) := by
  induction L using List.reverseRecOn with
  | nil =>
    intro x M R _ hxM _
    exact ⟨x :: M, by simp [sort_inner], hxM, by simp⟩
  | append_singleton L y ih =>
    intro x M R hL hxM hLM
    rw [List.Sorted, List.pairwise_append] at hL
    obtain ⟨hL1, -, hLy⟩ := hL
    have hLy : ∀ l ∈ L, l ≤ y := fun l hl => hLy l hl y (by simp)
    have hyM : ∀ m ∈ M, y ≤ m := fun m hm => hLM y (by simp) m hm
    have hLM1 : ∀ l ∈ L, ∀ m ∈ M, l ≤ m := fun l hl m hm => hLM l (by simp [hl]) m hm
    rw [List.sorted_cons] at hxM
    obtain ⟨hxM1, hM⟩ := hxM
    have hlen : (L ++ [y]).length = L.length + 1 := by simp
    have hlist : (L ++ [y]) ++ x :: (M ++ R) = L ++ y :: x :: (M ++ R) := by simp
    rw [hlen, hlist, sort_inner, sort_swap_append]
    by_cases hxy : x < y
    · rw [if_pos hxy]
      have h1 : (x :: y :: M).Sorted (· ≤ ·) := by
        simp only [List.sorted_cons, List.mem_cons, forall_eq_or_imp]
        exact ⟨⟨le_of_lt hxy, hxM1⟩, hyM, hM⟩
      have h2 : ∀ l ∈ L, ∀ m ∈ y :: M, l ≤ m := by
        intro l hl m hm
        rcases List.mem_cons.mp hm with rfl | hm
        · exact hLy l hl
        · exact hLM1 l hl m hm
      obtain ⟨S, hS, hSs, hSp⟩ := ih x (y :: M) R hL1 h1 h2
      refine ⟨S, by simpa using hS, hSs, hSp.trans ?_⟩
      rw [List.append_assoc]
      exact List.Perm.append_left L (by simpa using List.Perm.swap y x M)
    · rw [if_neg hxy]
      have hyx : y ≤ x := not_lt.mp hxy
      have h1 : (y :: x :: M).Sorted (· ≤ ·) := by
        simp only [List.sorted_cons, List.mem_cons, forall_eq_or_imp]
        exact ⟨⟨hyx, hyM⟩, hxM1, hM⟩
      have h2 : ∀ l ∈ L, ∀ m ∈ x :: M, l ≤ m := by
        intro l hl m hm
        rcases List.mem_cons.mp hm with rfl | hm
        · exact le_trans (hLy l hl) hyx
        · exact hLM1 l hl m hm
      obtain ⟨S, hS, hSs, hSp⟩ := ih y (x :: M) R hL1 h1 h2
      refine ⟨S, by simpa using hS, hSs, hSp.trans ?_⟩
      rw [List.append_assoc]
      rfl

theorem sort_outer_spec (Q : List Nat) :
    ∀ (P R : List Nat), P.Sorted (· ≤ ·) →
      ∃ S, sort_outer Q.length P.length (P ++ Q ++ R) = S ++ R ∧ S.Sorted (· ≤ ·) ∧
        S.Perm (P ++ Q) := by
  induction Q with
  | nil =>
    intro P R hP
    exact ⟨P, by simp [sort_outer], hP, by simp⟩
  | cons x Q ih =>
    intro P R hP
    obtain ⟨S, hS, hSs, hSp⟩ :=
      sort_inner_spec P x [] (Q ++ R) hP (List.sorted_singleton x) (by simp)
    have hSlen : S.length = P.length + 1 := by simpa using hSp.length_eq
    obtain ⟨S2, hS2, hS2s, hS2p⟩ := ih S R hSs
    refine ⟨S2, ?_, hS2s, hS2p.trans ?_⟩
    · have hlist : P ++ x :: Q ++ R = P ++ x :: ([] ++ (Q ++ R)) := by simp
      rw [List.length_cons, sort_outer, hlist, hS, ← hSlen, ← List.append_assoc]
      exact hS2
    · have : P ++ x :: Q = (P ++ [x]) ++ Q := by simp
      rw [this]
      exact List.Perm.append_right Q (by simpa using hSp)

/-- Calling `sort(a, n)` with `n` within the array: the first `n` entries end up in
ascending order and are a permutation of the old first `n` entries; the
entries from `n` on are untouched. -/
theorem sort_spec (a : List Nat) (n : Nat) (hn : n ≤ a.length) :
    ∃ S, sort a n = S ++ a.drop n ∧ S.Sorted (· ≤ ·) ∧ S.Perm (a.take n) := by
  cases n with
  | zero => exact ⟨[], by simp [sort, sort_outer], List.sorted_nil, by simp⟩
  | succ n =>
    cases a with
    | nil => simp at hn
    | cons a0 a =>
      simp only [List.length_cons, Nat.add_le_add_iff_right] at hn
      obtain ⟨S, hS, hSs, hSp⟩ :=
        sort_outer_spec (a.take n) [a0] (a.drop n) (List.sorted_singleton a0)
      refine ⟨S, ?_, hSs, by simpa using hSp⟩
      have h1 : (a.take n).length = n := by simp [hn]
      rw [h1] at hS
      simpa [sort] using hS

/-- Calling `sort(a, n)` on an array of exactly `n` entries is the ascending sort. -/
theorem sort_eq_insertionSort (a : List Nat) :
    sort a a.length = a.insertionSort (· ≤ ·) := by
  obtain ⟨S, hS, hSs, hSp⟩ := sort_spec a a.length le_rfl
  simp only [List.drop_length, List.append_nil, List.take_length] at hS hSp
  rw [hS]
  exact List.eq_of_perm_of_sorted (hSp.trans (List.perm_insertionSort _ a).symm) hSs
    (List.sorted_insertionSort _ a)

/-! ### `add_sample` -/

theorem add_sample_eq (w : List Nat) (len s : Nat) (hlen : w.length = len) (hpos : 1 ≤ len) :
    add_sample w len s = (w.tail ++ [s], median_ref (w.tail ++ [s])) := by
  have h1 : (w.drop 1).take (len - 1) = w.tail := by
    rw [List.drop_one, List.take_of_length_le]
    simp [hlen]
  have h2 : w.drop len = [] := by simp [hlen]
  have h3 : (w.tail ++ [s]).length = len := by simp [hlen]; omega
  unfold add_sample median_ref
  simp only [h1, h2, List.append_nil, Nat.shiftRight_one]
  have hs := sort_eq_insertionSort (w.tail ++ [s])
  rw [h3] at hs
  rw [h3, hs]

/-- C1: for a window of length `len ≥ 1`, `add_sample` leaves in storage the old
window without its first entry followed by the new sample (same length,
insertion order), and returns entry `len / 2` of the ascending sort of that
new window (of any ascending arrangement of it); the index is inside the
window, and for odd `len` it has as many entries before it as after it. -/
theorem add_sample_window_median (w : List Nat) (len s : Nat)
    (hlen : w.length = len) (hpos : 1 ≤ len) :
    (add_sample w len s).1 = w.tail ++ [s] ∧
    (add_sample w len s).1.length = len ∧
    (add_sample w len s).2 = ((w.tail ++ [s]).insertionSort (· ≤ ·)).getD (len / 2) 0 ∧
    (∀ srt : List Nat, srt.Sorted (· ≤ ·) → srt.Perm (w.tail ++ [s]) →
      (add_sample w len s).2 = srt.getD (len / 2) 0) ∧
    len / 2 < len ∧
    (len % 2 = 1 → len / 2 = len - 1 - len / 2) := by
  have h3 : (w.tail ++ [s]).length = len := by simp [hlen]; omega
  rw [add_sample_eq w len s hlen hpos]
  refine ⟨rfl, h3, ?_, ?_, by omega, by omega⟩
  · simp [median_ref, h3]
  · intro srt hs hp
    have : srt = (w.tail ++ [s]).insertionSort (· ≤ ·) :=
      List.eq_of_perm_of_sorted (hp.trans (List.perm_insertionSort _ _).symm) hs
        (List.sorted_insertionSort _ _)
    simp [median_ref, h3, this]

theorem add_sample_window_median_witness :
    ([5, 1, 4].length = 3 ∧ 1 ≤ 3) ∧
    (add_sample [5, 1, 4] 3 2).1 = [1, 4, 2] ∧ (add_sample [5, 1, 4] 3 2).2 = 2 :=
  ⟨⟨rfl, by decide⟩, (add_sample_window_median [5, 1, 4] 3 2 rfl (by decide)).1, by decide⟩

theorem push_samples_returns (W : Nat) (hW : 1 ≤ W) :
    ∀ (samples w : List Nat), w.length = W → ∀ i, i < samples.length →
      (push_samples w W samples).2.getD i 0
        = median_ref ((w ++ samples.take (i + 1)).drop (i + 1)) := by
  intro samples
  induction samples with
  | nil => intro w _ i hi; simp at hi
  | cons s ss ih =>
    intro w hw i hi
    obtain ⟨a, t, rfl⟩ : ∃ a t, w = a :: t := by
      cases w with
      | nil => simp at hw; omega
      | cons a t => exact ⟨a, t, rfl⟩
    have hadd := add_sample_eq (a :: t) W s hw hW
    simp only [List.tail_cons] at hadd
    cases i with
    | zero => simp [push_samples, hadd]
    | succ j =>
      have hj : j < ss.length := by simpa using hi
      have ht : (t ++ [s]).length = W := by simpa using hw
      have := ih (t ++ [s]) ht j hj
      simp only [push_samples, hadd, List.getD_cons_succ]
      rw [this]
      simp

/-- C2 (counterexample): in a fresh window of 19 entries the first push, of the
sample 100, returns 0 (the median of eighteen zeros and 100), while the median
of the one sample pushed so far is 100. -/
theorem push_samples_partial_window_counterexample :
    (push_samples (fresh_window 19) 19 [100]).2.getD (1 - 1) 0 = 0 ∧
    median_ref (([100].take 1).drop (1 - min 1 19)) = 100 ∧
    (push_samples (fresh_window 19) 19 [100]).2.getD (1 - 1) 0
      ≠ median_ref (([100].take 1).drop (1 - min 1 19)) := by
  set_option maxRecDepth 100000 in decide

/-- C2 (amended): pushing samples one at a time into a window of `W ≥ 1`
entries with initial contents `w0` (all zeros when freshly allocated), the
`k`-th push returns the reference median of the last `W` entries of `w0`
followed by the first `k` samples; once `k ≥ W` that is the reference median
of the last `W` samples pushed. -/
theorem push_samples_median (W : Nat) (hW : 1 ≤ W) (w0 : List Nat) (hw0 : w0.length = W)
    (samples : List Nat) (k : Nat) (hk1 : 1 ≤ k) (hk : k ≤ samples.length) :
    (push_samples w0 W samples).2.getD (k - 1) 0
        = median_ref ((w0 ++ samples.take k).drop k) ∧
    ((w0 ++ samples.take k).drop k).length = W ∧
    (W ≤ k → (push_samples w0 W samples).2.getD (k - 1) 0
        = median_ref ((samples.take k).drop (k - W))) := by
  have h := push_samples_returns W hW samples w0 hw0 (k - 1) (by omega)
  have hk' : k - 1 + 1 = k := by omega
  rw [hk'] at h
  refine ⟨h, by simp [hw0]; omega, ?_⟩
  intro hWk
  rw [h, List.drop_append_eq_append_drop, List.drop_of_length_le (by omega), hw0]
  simp

theorem push_samples_median_witness :
    (1 ≤ 3 ∧ (fresh_window 3).length = 3 ∧ 1 ≤ 4 ∧ 4 ≤ [9, 2, 7, 4].length) ∧
    (push_samples (fresh_window 3) 3 [9, 2, 7, 4]).2.getD (4 - 1) 0
      = median_ref (([9, 2, 7, 4].take 4).drop (4 - 3)) :=
  ⟨by decide,
   (push_samples_median 3 (by decide) (fresh_window 3) (by decide) [9, 2, 7, 4] 4
      (by decide) (by decide)).2.2 (by decide)⟩

/-! ### Touch debouncer -/

theorem update_ticks_eq (c : Int) (r b : Nat) (hc0 : 0 ≤ c) (hc6 : c ≤ 6) :
    update_ticks c r b
      = if (r : Int) - (b : Int) > 70 then min (c + 1) 6 else max (c - 1) 0 := by
  simp only [update_ticks, ticks_unwrapped, above_threshold, to_int8, PRESS_TICKS,
    PRESS_THRESHOLD, decide_eq_true_eq]
  split_ifs <;> omega

theorem update_ticks_bounds (c : Int) (r b : Nat) (hc0 : 0 ≤ c) (hc6 : c ≤ 6) :
    0 ≤ update_ticks c r b ∧ update_ticks c r b ≤ 6 := by
  rw [update_ticks_eq c r b hc0 hc6]
  split_ifs <;> omega

theorem ticks_run_append (c : Int) (xs ys : List (Nat × Nat)) :
    ticks_run c (xs ++ ys) = ticks_run (ticks_run c xs) ys := by
  induction xs generalizing c with
  | nil => rfl
  | cons x xs ih =>
    obtain ⟨r, b⟩ := x
    simp only [List.cons_append, ticks_run]
    exact ih _

theorem ticks_run_bounds (inputs : List (Nat × Nat)) :
    ∀ c : Int, 0 ≤ c → c ≤ 6 → 0 ≤ ticks_run c inputs ∧ ticks_run c inputs ≤ 6 := by
  induction inputs with
  | nil => intro c h0 h6; exact ⟨h0, h6⟩
  | cons x xs ih =>
    intro c h0 h6
    obtain ⟨r, b⟩ := x
    have hb := update_ticks_bounds c r b h0 h6
    exact ih _ hb.1 hb.2

theorem update_pin_fields (now_ms sample : Nat) (p : pin_t) :
    (update_pin now_ms sample p).1.reading = (add_sample p.readings SAMPLE_WINDOW sample).2 ∧
    (update_pin now_ms sample p).1.readings = (add_sample p.readings SAMPLE_WINDOW sample).1 ∧
    (update_pin now_ms sample p).1.baseline = p.baseline ∧
    (update_pin now_ms sample p).1.ticks_pressed
      = update_ticks p.ticks_pressed (add_sample p.readings SAMPLE_WINDOW sample).2 p.baseline := by
  unfold update_pin
  dsimp only
  generalize add_sample p.readings SAMPLE_WINDOW sample = r
  split_ifs <;> exact ⟨rfl, rfl, rfl, rfl⟩

/-- C3: for a pad whose debounce counter `c` is in `[0, 6]`, one tick of
`update` leaves the counter at `min (c + 1) 6` when the signed difference
reading - baseline exceeds 70 and at `max (c - 1) 0` otherwise (for every
reading and baseline, and in particular for the filtered reading the tick just
computed and the pad's baseline); the pad is pressed exactly when the counter
is at least 3. -/
theorem update_counter_step (c : Int) (hc0 : 0 ≤ c) (hc6 : c ≤ 6) :
    (∀ r b : Nat, update_ticks c r b
        = if (r : Int) - (b : Int) > 70 then min (c + 1) 6 else max (c - 1) 0) ∧
    (∀ (now_ms sample : Nat) (p : pin_t), p.ticks_pressed = c →
        (update_pin now_ms sample p).1.reading = (add_sample p.readings 19 sample).2 ∧
        (update_pin now_ms sample p).1.baseline = p.baseline ∧
        (update_pin now_ms sample p).1.ticks_pressed
          = (if ((update_pin now_ms sample p).1.reading : Int)
                  - ((update_pin now_ms sample p).1.baseline : Int) > 70
             then min (c + 1) 6 else max (c - 1) 0)) ∧
    (∀ t : Int, pressed t = true ↔ 3 ≤ t) := by
  refine ⟨fun r b => update_ticks_eq c r b hc0 hc6, ?_, ?_⟩
  · intro now_ms sample p hp
    obtain ⟨h1, -, h2, h3⟩ := update_pin_fields now_ms sample p
    refine ⟨h1, h2, ?_⟩
    rw [h3, h2, h1, hp]
    exact update_ticks_eq c _ p.baseline hc0 hc6
  · intro t
    simp [pressed, PRESS_TICKS]

theorem update_counter_step_witness :
    ((0 : Int) ≤ 6 ∧ (6 : Int) ≤ 6) ∧ update_ticks 6 500 100 = 6 ∧ update_ticks 6 170 100 = 5 :=
  ⟨by decide,
   by simpa using (update_counter_step 6 (by decide) (by decide)).1 500 100,
   by simpa using (update_counter_step 6 (by decide) (by decide)).1 170 100⟩

/-- C4: starting from counter 0, after every tick of every finite run of ticks
(arbitrary readings and baselines) the counter is within
`[0, 2 * PRESS_TICKS] = [0, 6]`, and the value `ticks_pressed ± 1` computed by
the next tick fits the `int8_t` field (no wrap-around), so storing it does not
change it. -/
theorem ticks_pressed_bounded (inputs : List (Nat × Nat)) (k : Nat) :
    0 ≤ ticks_run 0 (inputs.take k) ∧
    ticks_run 0 (inputs.take k) ≤ 2 * PRESS_TICKS ∧
    ticks_run 0 (inputs.take k) ≤ 6 ∧
    (∀ r b : Nat,
      -128 ≤ ticks_unwrapped (ticks_run 0 (inputs.take k)) r b ∧
      ticks_unwrapped (ticks_run 0 (inputs.take k)) r b ≤ 127 ∧
      to_int8 (ticks_unwrapped (ticks_run 0 (inputs.take k)) r b)
        = ticks_unwrapped (ticks_run 0 (inputs.take k)) r b) := by
  have h := ticks_run_bounds (inputs.take k) 0 (by decide) (by decide)
  refine ⟨h.1, by simpa [PRESS_TICKS] using h.2, h.2, ?_⟩
  intro r b
  simp only [ticks_unwrapped, to_int8]
  split_ifs <;> omega

theorem update_ticks_above (c : Int) (r b : Nat) (hc0 : 0 ≤ c) (hc6 : c ≤ 6)
    (h : above_threshold r b = true) : update_ticks c r b = min (c + 1) 6 := by
  rw [update_ticks_eq c r b hc0 hc6]
  simp only [above_threshold, PRESS_THRESHOLD, decide_eq_true_eq] at h
  rw [if_pos h]

theorem update_ticks_below (c : Int) (r b : Nat) (hc0 : 0 ≤ c) (hc6 : c ≤ 6)
    (h : above_threshold r b = false) : update_ticks c r b = max (c - 1) 0 := by
  rw [update_ticks_eq c r b hc0 hc6]
  simp only [above_threshold, PRESS_THRESHOLD, decide_eq_false_iff_not] at h
  rw [if_neg h]

theorem pressed_iff (c : Int) : pressed c = true ↔ 3 ≤ c := by
  simp [pressed, PRESS_TICKS]

theorem pressed_eq_false_iff (c : Int) : pressed c = false ↔ c < 3 := by
  simp [pressed, PRESS_TICKS]

theorem ticks_run_above (inputs : List (Nat × Nat)) :
    ∀ c : Int, 0 ≤ c → c ≤ 6 → (∀ x ∈ inputs, above_threshold x.1 x.2 = true) →
      ticks_run c inputs = min (c + inputs.length) 6 := by
  induction inputs with
  | nil => intro c h0 h6 _; simp [ticks_run]; omega
  | cons x xs ih =>
    intro c h0 h6 h
    obtain ⟨r, b⟩ := x
    have hx : above_threshold r b = true := h (r, b) (by simp)
    have hstep := update_ticks_above c r b h0 h6 hx
    have hb := update_ticks_bounds c r b h0 h6
    rw [ticks_run, ih _ hb.1 hb.2 (fun y hy => h y (by simp [hy])), hstep]
    simp only [List.length_cons, Nat.cast_add, Nat.cast_one]
    omega

/-- C5 (counterexample): in the run above, above, above, below, above, below
(reading 100 or 0 over baseline 0, from counter 0) the fifth tick is above the
threshold, its two neighbours are not, and the pad is not pressed before the
fifth tick but pressed after it. -/
theorem isolated_tick_flips_counterexample :
    above_threshold 0 0 = false ∧ above_threshold 100 0 = true ∧
    pressed (ticks_run 0 [(100, 0), (100, 0), (100, 0), (0, 0)]) = false ∧
    pressed (ticks_run 0 [(100, 0), (100, 0), (100, 0), (0, 0), (100, 0)]) = true ∧
    pressed (ticks_run 0 [(100, 0), (100, 0), (100, 0), (0, 0), (100, 0), (0, 0)]) = false := by
  decide

/-- C5 (amended): in a run of ticks from counter 0, let a tick `y` above the
threshold follow a tick `x` not above it and precede a tick `z` not above it.
The tick `y` leaves `pressed` unchanged exactly when the counter was not
`PRESS_TICKS = 3` before `x` (that is, not 2 before `y`); when it was 3, the
pad is not pressed before `y`, pressed after `y`, and not pressed after `z`. -/
theorem isolated_tick_pressed (pre : List (Nat × Nat)) (x y z : Nat × Nat)
    (hx : above_threshold x.1 x.2 = false) (hy : above_threshold y.1 y.2 = true)
    (hz : above_threshold z.1 z.2 = false) :
    (pressed (ticks_run 0 (pre ++ [x, y])) = pressed (ticks_run 0 (pre ++ [x]))
      ↔ ticks_run 0 pre ≠ 3) ∧
    (ticks_run 0 pre = 3 ↔ ticks_run 0 (pre ++ [x]) = 2) ∧
    (ticks_run 0 pre = 3 →
      pressed (ticks_run 0 (pre ++ [x])) = false ∧
      pressed (ticks_run 0 (pre ++ [x, y])) = true ∧
      pressed (ticks_run 0 (pre ++ [x, y, z])) = false) := by
  obtain ⟨h0, h6⟩ := ticks_run_bounds pre 0 (by decide) (by decide)
  obtain ⟨xr, xb⟩ := x
  obtain ⟨yr, yb⟩ := y
  obtain ⟨zr, zb⟩ := z
  simp only [ticks_run_append, ticks_run]
  generalize ticks_run 0 pre = c0 at h0 h6
  have h1 := update_ticks_below c0 xr xb h0 h6 hx
  have hb1 := update_ticks_bounds c0 xr xb h0 h6
  generalize update_ticks c0 xr xb = c1 at h1 hb1
  have h2 := update_ticks_above c1 yr yb hb1.1 hb1.2 hy
  have hb2 := update_ticks_bounds c1 yr yb hb1.1 hb1.2
  generalize update_ticks c1 yr yb = c2 at h2 hb2
  have h3 := update_ticks_below c2 zr zb hb2.1 hb2.2 hz
  generalize update_ticks c2 zr zb = c3 at h3
  have e1 := pressed_iff c1
  have e2 := pressed_iff c2
  have f1 := pressed_eq_false_iff c1
  have f3 := pressed_eq_false_iff c3
  refine ⟨?_, by omega, ?_⟩
  · constructor
    · intro h hc
      have : pressed c1 = false := f1.mpr (by omega)
      have h5 : pressed c2 = true := e2.mpr (by omega)
      rw [h, this] at h5
      exact Bool.noConfusion h5
    · intro hc
      by_cases hp : 3 ≤ c1
      · rw [e1.mpr hp, e2.mpr (by omega)]
      · have a1 : pressed c1 = false := f1.mpr (by omega)
        have a2 : pressed c2 = false := (pressed_eq_false_iff c2).mpr (by omega)
        rw [a1, a2]
  · intro hc
    exact ⟨f1.mpr (by omega), e2.mpr (by omega), f3.mpr (by omega)⟩

theorem isolated_tick_pressed_witness :
    (above_threshold 0 0 = false ∧ above_threshold 100 0 = true) ∧
    (pressed (ticks_run 0 ([(100, 0)] ++ [(0, 0), (100, 0)]))
        = pressed (ticks_run 0 ([(100, 0)] ++ [(0, 0)]))
      ↔ ticks_run 0 [(100, 0)] ≠ 3) :=
  ⟨by decide,
   (isolated_tick_pressed [(100, 0)] (0, 0) (100, 0) (0, 0)
      (by decide) (by decide) (by decide)).1⟩

/-- C6: from counter 0 (not pressed), after `k` consecutive ticks above the
threshold the counter is `min k 6`; the pad is still not pressed for `k = 1`
and `k = 2` and is pressed for `k = 3`, so the change from not pressed to
pressed happens on the third (`PRESS_TICKS`-th) consecutive such tick. -/
theorem press_after_three_ticks (inputs : List (Nat × Nat))
    (h : ∀ x ∈ inputs, above_threshold x.1 x.2 = true) :
    pressed 0 = false ∧
    ticks_run 0 inputs = min (inputs.length : Int) 6 ∧
    (inputs.length = 1 → pressed (ticks_run 0 inputs) = false) ∧
    (inputs.length = 2 → pressed (ticks_run 0 inputs) = false) ∧
    (inputs.length = 3 → pressed (ticks_run 0 inputs) = true) ∧
    (pressed (ticks_run 0 inputs) = true ↔ 3 ≤ inputs.length) := by
  have hrun := ticks_run_above inputs 0 (by decide) (by decide) h
  rw [zero_add] at hrun
  refine ⟨by decide, hrun, ?_, ?_, ?_, ?_⟩
  · intro hl
    rw [pressed_eq_false_iff, hrun]; omega
  · intro hl
    rw [pressed_eq_false_iff, hrun]; omega
  · intro hl
    rw [pressed_iff, hrun]; omega
  · rw [pressed_iff, hrun]; omega

theorem press_after_three_ticks_witness :
    (∀ x ∈ [((171 : Nat), (100 : Nat)), (200, 100), (65535, 0)],
        above_threshold x.1 x.2 = true) ∧
    pressed (ticks_run 0 [(171, 100), (200, 100), (65535, 0)]) = true :=
  ⟨by decide,
   (press_after_three_ticks [(171, 100), (200, 100), (65535, 0)] (by decide)).2.2.2.2.1 rfl⟩

/-! ### Swipe detector -/

theorem to_int32_range (x : Int) : -2147483648 ≤ to_int32 x ∧ to_int32 x < 2147483648 := by
  unfold to_int32
  omega

theorem swipe_pair_eq_some (delta d : Int) (p0 p : pin_t)
    (hdelta : delta = 0 ∨ delta = 1 ∨ delta = -1) :
    swipe_pair delta p0 p = some d ↔ (delta = 0 ∨ delta = d) ∧ pair_dir d p0 p := by
  have hs : -2147483648 ≤ start_delta p0 p ∧ start_delta p0 p < 2147483648 :=
    to_int32_range _
  have he : -2147483648 ≤ end_delta p0 p ∧ end_delta p0 p < 2147483648 :=
    to_int32_range _
  unfold swipe_pair pair_dir
  generalize start_delta p0 p = sd at hs ⊢
  generalize end_delta p0 p = ed at he ⊢
  simp only [to_int32, SWIPE_DELTA_MIN, SWIPE_DELTA_MAX]
  split_ifs <;> simp only [Option.some.injEq, false_iff, reduceCtorEq] <;> omega

theorem detect_swipe_loop_spec (pins : List pin_t) :
    ∀ (k i : Nat) (delta d : Int), (delta = 0 ∨ delta = 1 ∨ delta = -1) →
      (detect_swipe_loop pins k i delta = some d ↔
        (∀ j, i ≤ j → j < i + k → duration_ok (pins.getD j default)) ∧
        (∀ j, i ≤ j → j < i + k → 0 < j →
          pair_dir d (pins.getD (j - 1) default) (pins.getD j default)) ∧
        (delta = d ∨ (delta = 0 ∧ ∃ j, i ≤ j ∧ j < i + k ∧ 0 < j))) := by
  intro k
  induction k with
  | zero =>
    intro i delta d _
    simp only [detect_swipe_loop, Option.some.injEq, Nat.add_zero]
    constructor
    · intro h
      exact ⟨fun j h1 h2 => absurd h2 (by omega), fun j h1 h2 => absurd h2 (by omega), Or.inl h⟩
    · rintro ⟨-, -, h | ⟨-, j, h1, h2, -⟩⟩
      · exact h
      · omega
  | succ k ih =>
    intro i delta d hdelta
    rw [detect_swipe_loop]
    by_cases hdur : duration_ok (pins.getD i default)
    · have hdur' : ¬¬(SWIPE_DURATION_MIN ≤ press_duration (pins.getD i default) ∧
          press_duration (pins.getD i default) ≤ SWIPE_DURATION_MAX) := not_not.mpr hdur
      rw [if_neg hdur']
      by_cases hi : i > 0
      · rw [if_pos hi]
        cases hsp : swipe_pair delta (pins.getD (i - 1) default) (pins.getD i default) with
        | none =>
          simp only [false_iff, reduceCtorEq]
          rintro ⟨-, hp, hd⟩
          have hpi := hp i le_rfl (by omega) hi
          have : swipe_pair delta (pins.getD (i - 1) default) (pins.getD i default) = some d := by
            rw [swipe_pair_eq_some delta d _ _ hdelta]
            refine ⟨?_, hpi⟩
            rcases hd with h | ⟨h, -⟩
            · exact Or.inr h
            · exact Or.inl h
          rw [hsp] at this
          exact Option.noConfusion this
        | some delta1 =>
          simp only []
          rw [swipe_pair_eq_some delta delta1 _ _ hdelta] at hsp
          obtain ⟨hd1, hpd1⟩ := hsp
          have hdelta1 : delta1 = 0 ∨ delta1 = 1 ∨ delta1 = -1 := by
            rcases hpd1 with ⟨h, -⟩ | ⟨h, -⟩
            · exact Or.inr (Or.inl h)
            · exact Or.inr (Or.inr h)
          have hne : delta1 ≠ 0 := by
            rcases hpd1 with ⟨h, -⟩ | ⟨h, -⟩ <;> omega
          rw [ih (i + 1) delta1 d hdelta1]
          constructor
          · rintro ⟨hdurs, hpairs, hd⟩
            have hdd : delta1 = d := by
              rcases hd with h | ⟨h, -⟩
              · exact h
              · exact absurd h hne
            refine ⟨?_, ?_, ?_⟩
            · intro j h1 h2
              by_cases hj : j = i
              · rw [hj]; exact hdur
              · exact hdurs j (by omega) (by omega)
            · intro j h1 h2 h3
              by_cases hj : j = i
              · rw [hj, ← hdd]; exact hpd1
              · exact hpairs j (by omega) (by omega) h3
            · rcases hd1 with h | h
              · exact Or.inr ⟨h, i, le_rfl, by omega, hi⟩
              · exact Or.inl (h.trans hdd)
          · rintro ⟨hdurs, hpairs, -⟩
            have hpi := hpairs i le_rfl (by omega) hi
            have hdd : delta1 = d := by
              unfold pair_dir at hpi hpd1
              omega
            refine ⟨?_, ?_, Or.inl hdd⟩
            · intro j h1 h2
              exact hdurs j (by omega) (by omega)
            · intro j h1 h2 h3
              exact hpairs j (by omega) (by omega) h3
      · rw [if_neg hi]
        have hi0 : i = 0 := by omega
        subst hi0
        rw [ih 1 delta d hdelta]
        constructor
        · rintro ⟨hdurs, hpairs, hd⟩
          refine ⟨?_, ?_, ?_⟩
          · intro j h1 h2
            by_cases hj : j = 0
            · rw [hj]; exact hdur
            · exact hdurs j (by omega) (by omega)
          · intro j h1 h2 h3
            exact hpairs j (by omega) (by omega) h3
          · rcases hd with h | ⟨h, j, h1, h2, h3⟩
            · exact Or.inl h
            · exact Or.inr ⟨h, j, by omega, by omega, h3⟩
        · rintro ⟨hdurs, hpairs, hd⟩
          refine ⟨?_, ?_, ?_⟩
          · intro j h1 h2
            exact hdurs j (by omega) (by omega)
          · intro j h1 h2 h3
            exact hpairs j (by omega) (by omega) h3
          · rcases hd with h | ⟨h, j, h1, h2, h3⟩
            · exact Or.inl h
            · exact Or.inr ⟨h, j, by omega, by omega, h3⟩
    · have hdur' : ¬(SWIPE_DURATION_MIN ≤ press_duration (pins.getD i default) ∧
          press_duration (pins.getD i default) ≤ SWIPE_DURATION_MAX) := hdur
      rw [if_pos hdur']
      simp only [false_iff, reduceCtorEq]
      rintro ⟨hdurs, -, -⟩
      exact hdur (hdurs i le_rfl (by omega))

theorem range_pos_iff (x : Int) :
    (10 ≤ x ∧ x ≤ 500) ↔ (Int.sign x = 1 ∧ 10 ≤ |x| ∧ |x| ≤ 500) := by
  rcases lt_trichotomy x 0 with h | h | h
  · rw [Int.sign_eq_neg_one_of_neg h, abs_of_neg h]
    constructor
    · intro h1; omega
    · rintro ⟨h1, -⟩; omega
  · subst h
    simp
  · rw [Int.sign_eq_one_of_pos h, abs_of_pos h]
    simp

theorem range_neg_iff (x : Int) :
    (-500 ≤ x ∧ x ≤ -10) ↔ (Int.sign x = -1 ∧ 10 ≤ |x| ∧ |x| ≤ 500) := by
  rcases lt_trichotomy x 0 with h | h | h
  · rw [Int.sign_eq_neg_one_of_neg h, abs_of_neg h]
    constructor
    · intro h1; exact ⟨rfl, by omega, by omega⟩
    · rintro ⟨-, h1, h2⟩; omega
  · subst h
    simp
  · rw [Int.sign_eq_one_of_pos h, abs_of_pos h]
    constructor
    · intro h1; omega
    · rintro ⟨h1, -⟩; omega

theorem pair_dir_iff_sign (d : Int) (p0 p : pin_t) :
    pair_dir d p0 p ↔
      (d = 1 ∨ d = -1) ∧ Int.sign (start_delta p0 p) = d ∧ Int.sign (end_delta p0 p) = d ∧
      (10 ≤ |start_delta p0 p| ∧ |start_delta p0 p| ≤ 500) ∧
      (10 ≤ |end_delta p0 p| ∧ |end_delta p0 p| ≤ 500) := by
  unfold pair_dir
  have a1 := range_pos_iff (start_delta p0 p)
  have a2 := range_pos_iff (end_delta p0 p)
  have b1 := range_neg_iff (start_delta p0 p)
  have b2 := range_neg_iff (end_delta p0 p)
  constructor
  · rintro (⟨hd, h1, h2, h3, h4⟩ | ⟨hd, h1, h2, h3, h4⟩)
    · obtain ⟨s1, r1⟩ := a1.mp ⟨h1, h2⟩
      obtain ⟨s2, r2⟩ := a2.mp ⟨h3, h4⟩
      exact ⟨Or.inl hd, s1.trans hd.symm, s2.trans hd.symm, r1, r2⟩
    · obtain ⟨s1, r1⟩ := b1.mp ⟨h1, h2⟩
      obtain ⟨s2, r2⟩ := b2.mp ⟨h3, h4⟩
      exact ⟨Or.inr hd, s1.trans hd.symm, s2.trans hd.symm, r1, r2⟩
  · rintro ⟨hd | hd, s1, s2, r1, r2⟩
    · obtain ⟨h1, h2⟩ := a1.mpr ⟨s1.trans hd, r1⟩
      obtain ⟨h3, h4⟩ := a2.mpr ⟨s2.trans hd, r2⟩
      exact Or.inl ⟨hd, h1, h2, h3, h4⟩
    · obtain ⟨h1, h2⟩ := b1.mpr ⟨s1.trans hd, r1⟩
      obtain ⟨h3, h4⟩ := b2.mpr ⟨s2.trans hd, r2⟩
      exact Or.inr ⟨hd, h1, h2, h3, h4⟩

theorem detect_swipe_eq_some (state : srv_state) (d : Int) :
    detect_swipe state = some d ↔
      (∀ j, j < state.numpins → duration_ok (state.pins.getD j default)) ∧
      (∀ j, j < state.numpins → 0 < j →
        pair_dir d (state.pins.getD (j - 1) default) (state.pins.getD j default)) ∧
      (0 = d ∨ 2 ≤ state.numpins) := by
  unfold detect_swipe
  rw [detect_swipe_loop_spec state.pins state.numpins 0 0 d (Or.inl rfl)]
  simp only [Nat.zero_le, Nat.zero_add, true_implies, true_and]
  constructor
  · rintro ⟨h1, h2, h3 | ⟨j, hj1, hj2⟩⟩
    · exact ⟨h1, h2, Or.inl h3⟩
    · exact ⟨h1, h2, Or.inr (by omega)⟩
  · rintro ⟨h1, h2, h3 | h3⟩
    · exact ⟨h1, h2, Or.inl h3⟩
    · exact ⟨h1, h2, Or.inr ⟨1, by omega, by omega⟩⟩

theorem sign_of_ten_le_abs (x : Int) (h : 10 ≤ |x|) : Int.sign x = 1 ∨ Int.sign x = -1 := by
  rcases lt_trichotomy x 0 with hx | hx | hx
  · exact Or.inr (Int.sign_eq_neg_one_of_neg hx)
  · subst hx; simp at h
  · exact Or.inl (Int.sign_eq_one_of_pos hx)

/-- C7 (counterexample): an engine of a single pad pressed for 100 ms passes
every test of `detect_swipe` (there is no adjacent pair), so a swipe is
emitted, and the direction it carries is 0: neither +1 nor -1, and not the
sign of any pair's start delta. -/
theorem detect_swipe_single_pad_counterexample :
    (engine_of [pad_at 0 100]).numpins = 1 ∧
    detect_swipe (engine_of [pad_at 0 100]) = some 0 ∧
    detect_swipe (engine_of [pad_at 0 100]) ≠ some 1 ∧
    detect_swipe (engine_of [pad_at 0 100]) ≠ some (-1) := by
  decide

/-- C7 (amended): `detect_swipe` emits a swipe if and only if (1) every pad's
press duration is in `[10, 500]`, (2) for every adjacent pair the start delta
and the end delta have the same sign, which is the sign of the first pair's
start delta, and (3) for every adjacent pair the absolute values of both deltas
are in `[10, 500]`. When it emits and there are at least two pads, the
direction is the sign of the first pair's start delta (+1 when pad 1 started
after pad 0, -1 when it started before); with fewer than two pads the
direction emitted is 0. -/
theorem detect_swipe_iff (state : srv_state) (_hwf : state.pins.length = state.numpins) :
    ((detect_swipe state).isSome = true ↔
      (∀ i, i < state.numpins →
        10 ≤ press_duration (state.pins.getD i default) ∧
        press_duration (state.pins.getD i default) ≤ 500) ∧
      (∀ i, 0 < i → i < state.numpins →
        Int.sign (start_delta (state.pins.getD (i - 1) default) (state.pins.getD i default))
          = Int.sign (end_delta (state.pins.getD (i - 1) default) (state.pins.getD i default)) ∧
        Int.sign (start_delta (state.pins.getD (i - 1) default) (state.pins.getD i default))
          = Int.sign (start_delta (state.pins.getD 0 default) (state.pins.getD 1 default))) ∧
      (∀ i, 0 < i → i < state.numpins →
        (10 ≤ |start_delta (state.pins.getD (i - 1) default) (state.pins.getD i default)| ∧
          |start_delta (state.pins.getD (i - 1) default) (state.pins.getD i default)| ≤ 500) ∧
        (10 ≤ |end_delta (state.pins.getD (i - 1) default) (state.pins.getD i default)| ∧
          |end_delta (state.pins.getD (i - 1) default) (state.pins.getD i default)| ≤ 500))) ∧
    (∀ d, detect_swipe state = some d →
      (2 ≤ state.numpins →
        d = Int.sign (start_delta (state.pins.getD 0 default) (state.pins.getD 1 default)) ∧
        (d = 1 ∨ d = -1) ∧
        (d = 1 ↔ 0 < start_delta (state.pins.getD 0 default) (state.pins.getD 1 default)) ∧
        (d = -1 ↔ start_delta (state.pins.getD 0 default) (state.pins.getD 1 default) < 0)) ∧
      (state.numpins < 2 → d = 0)) := by
  have hdir : ∀ d, detect_swipe state = some d → 2 ≤ state.numpins →
      (d = 1 ∨ d = -1) ∧
      Int.sign (start_delta (state.pins.getD 0 default) (state.pins.getD 1 default)) = d := by
    intro d hd hn
    rw [detect_swipe_eq_some] at hd
    have h1 := (pair_dir_iff_sign d _ _).mp (hd.2.1 1 (by omega) (by omega))
    exact ⟨h1.1, h1.2.1⟩
  constructor
  · rw [Option.isSome_iff_exists]
    constructor
    · rintro ⟨d, hd⟩
      have hd' := (detect_swipe_eq_some state d).mp hd
      refine ⟨fun i hi => hd'.1 i hi, ?_, ?_⟩
      · intro i hi0 hin
        have hp := (pair_dir_iff_sign d _ _).mp (hd'.2.1 i hin hi0)
        have h1 := (hdir d hd (by omega)).2
        exact ⟨hp.2.1.trans hp.2.2.1.symm, hp.2.1.trans h1.symm⟩
      · intro i hi0 hin
        have hp := (pair_dir_iff_sign d _ _).mp (hd'.2.1 i hin hi0)
        exact ⟨hp.2.2.2.1, hp.2.2.2.2⟩
    · rintro ⟨h1, h2, h3⟩
      by_cases hn : 2 ≤ state.numpins
      · refine ⟨Int.sign (start_delta (state.pins.getD 0 default)
          (state.pins.getD 1 default)), ?_⟩
        rw [detect_swipe_eq_some]
        refine ⟨fun j hj => h1 j hj, ?_, Or.inr hn⟩
        intro j hj hj0
        rw [pair_dir_iff_sign]
        have hs := h2 j hj0 hj
        have hr := h3 j hj0 hj
        exact ⟨sign_of_ten_le_abs _ (h3 1 (by omega) (by omega)).1.1, hs.2,
          hs.1.symm.trans hs.2, hr.1, hr.2⟩
      · refine ⟨0, ?_⟩
        rw [detect_swipe_eq_some]
        exact ⟨fun j hj => h1 j hj, fun j hj hj0 => absurd hj0 (by omega), Or.inl rfl⟩
  · intro d hd
    constructor
    · intro hn
      obtain ⟨h1, h2⟩ := hdir d hd hn
      refine ⟨h2.symm, h1, ?_, ?_⟩
      · rw [← h2]; exact Int.sign_eq_one_iff_pos
      · rw [← h2]; exact Int.sign_eq_neg_one_iff_neg
    · intro hn
      rw [detect_swipe_eq_some] at hd
      rcases hd.2.2 with h | h
      · exact h.symm
      · omega

theorem detect_swipe_iff_witness :
    (engine_of [pad_at 0 100, pad_at 50 150]).pins.length
      = (engine_of [pad_at 0 100, pad_at 50 150]).numpins ∧
    (1 : Int) = Int.sign (start_delta
      ((engine_of [pad_at 0 100, pad_at 50 150]).pins.getD 0 default)
      ((engine_of [pad_at 0 100, pad_at 50 150]).pins.getD 1 default)) :=
  ⟨rfl,
   (((detect_swipe_iff (engine_of [pad_at 0 100, pad_at 50 150]) rfl).2 1 (by decide)).1
      (by decide)).1⟩

theorem press_duration_pad_at (s e : Int) :
    press_duration (pad_at s e) = (e - s) % 4294967296 := by
  simp only [press_duration, pad_at, sub_u32, u32]
  omega

theorem start_delta_pad_at (s0 e0 s1 e1 : Int) :
    start_delta (pad_at s0 e0) (pad_at s1 e1) = to_int32 ((s1 - s0) % 4294967296) := by
  simp only [start_delta, pad_at, sub_u32, u32]
  congr 1
  omega

theorem end_delta_pad_at (s0 e0 s1 e1 : Int) :
    end_delta (pad_at s0 e0) (pad_at s1 e1) = to_int32 ((e1 - e0) % 4294967296) := by
  simp only [end_delta, pad_at, sub_u32, u32]
  congr 1
  omega

/-- C8: for every base timestamp `t`, the engine of three pads with start
timestamps `t, t+50, t+110` and end timestamps `t+100, t+150, t+205` (each
reduced to 32 bits) makes `detect_swipe` emit a swipe with direction +1. -/
theorem detect_swipe_positive_case (t : Int) :
    detect_swipe (engine_of
      [pad_at t (t + 100), pad_at (t + 50) (t + 150), pad_at (t + 110) (t + 205)]) = some 1 := by
  rw [detect_swipe_eq_some]
  have hn : (engine_of
      [pad_at t (t + 100), pad_at (t + 50) (t + 150), pad_at (t + 110) (t + 205)]).numpins
        = 3 := rfl
  rw [hn]
  refine ⟨?_, ?_, Or.inr (by decide)⟩
  · intro j hj
    have hj3 : j = 0 ∨ j = 1 ∨ j = 2 := by omega
    rcases hj3 with rfl | rfl | rfl <;>
      simp only [engine_of, List.getD_cons_zero, List.getD_cons_succ, duration_ok,
        press_duration_pad_at, SWIPE_DURATION_MIN, SWIPE_DURATION_MAX] <;> omega
  · intro j hj hj0
    have hj3 : j = 1 ∨ j = 2 := by omega
    rcases hj3 with rfl | rfl <;> refine Or.inl ⟨rfl, ?_⟩ <;>
      simp only [engine_of, Nat.reduceSub, List.getD_cons_zero, List.getD_cons_succ,
        start_delta_pad_at, end_delta_pad_at, to_int32] <;> omega

theorem detect_swipe_none_of_signs (state : srv_state) (i : Nat) (hi0 : 0 < i)
    (hi : i < state.numpins)
    (h : (start_delta (state.pins.getD (i - 1) default) (state.pins.getD i default) < 0 ∧
          0 < start_delta (state.pins.getD 0 default) (state.pins.getD 1 default)) ∨
        (0 < start_delta (state.pins.getD (i - 1) default) (state.pins.getD i default) ∧
          start_delta (state.pins.getD 0 default) (state.pins.getD 1 default) < 0) ∨
        (end_delta (state.pins.getD (i - 1) default) (state.pins.getD i default) < 0 ∧
          0 < start_delta (state.pins.getD (i - 1) default) (state.pins.getD i default)) ∨
        (0 < end_delta (state.pins.getD (i - 1) default) (state.pins.getD i default) ∧
          start_delta (state.pins.getD (i - 1) default) (state.pins.getD i default) < 0)) :
    detect_swipe state = none := by
  cases hd : detect_swipe state with
  | none => rfl
  | some d =>
    exfalso
    rw [detect_swipe_eq_some] at hd
    have h1 := hd.2.1 1 (by omega) (by omega)
    have h2 := hd.2.1 i hi hi0
    simp only [Nat.sub_self] at h1
    unfold pair_dir at h1 h2
    omega

/-- C9: if for some adjacent pair the start delta has the opposite sign to the
first pair's start delta, or the pair's end delta has the opposite sign to its
own start delta, `detect_swipe` emits no swipe; in particular, for every base
timestamp `t`, the three pads with starts `t, t+50, t+50-60` and ends
`t+100, t+150, t+205` (pad 2 starting 60 before pad 1 instead of 60 after)
emit no swipe. -/
theorem detect_swipe_sign_disagreement (state : srv_state)
    (_hwf : state.pins.length = state.numpins) :
    ((∃ i, 0 < i ∧ i < state.numpins ∧
        ((start_delta (state.pins.getD (i - 1) default) (state.pins.getD i default) < 0 ∧
            0 < start_delta (state.pins.getD 0 default) (state.pins.getD 1 default)) ∨
          (0 < start_delta (state.pins.getD (i - 1) default) (state.pins.getD i default) ∧
            start_delta (state.pins.getD 0 default) (state.pins.getD 1 default) < 0) ∨
          (end_delta (state.pins.getD (i - 1) default) (state.pins.getD i default) < 0 ∧
            0 < start_delta (state.pins.getD (i - 1) default) (state.pins.getD i default)) ∨
          (0 < end_delta (state.pins.getD (i - 1) default) (state.pins.getD i default) ∧
            start_delta (state.pins.getD (i - 1) default) (state.pins.getD i default) < 0))) →
      detect_swipe state = none) ∧
    (∀ t : Int, detect_swipe (engine_of
      [pad_at t (t + 100), pad_at (t + 50) (t + 150), pad_at (t + 50 - 60) (t + 205)]) = none) := by
  constructor
  · rintro ⟨i, hi0, hi, h⟩
    exact detect_swipe_none_of_signs state i hi0 hi h
  · intro t
    apply detect_swipe_none_of_signs _ 2 (by decide) (by simp [engine_of])
    refine Or.inl ?_
    simp only [engine_of, Nat.reduceSub, List.getD_cons_zero, List.getD_cons_succ,
      start_delta_pad_at, to_int32]
    omega

theorem detect_swipe_sign_disagreement_witness :
    (engine_of [pad_at 100 200, pad_at 150 250, pad_at 90 305]).pins.length
      = (engine_of [pad_at 100 200, pad_at 150 250, pad_at 90 305]).numpins ∧
    detect_swipe (engine_of [pad_at 100 200, pad_at 150 250, pad_at 90 305]) = none :=
  ⟨rfl,
   (detect_swipe_sign_disagreement
      (engine_of [pad_at 100 200, pad_at 150 250, pad_at 90 305]) rfl).1
     ⟨2, by decide, by decide, Or.inl (by decide)⟩⟩

/-- C10: if any pad, at any index, has a press duration outside `[10, 500]`
(600 for example), `detect_swipe` emits no swipe, whatever the other
timestamps are. -/
theorem detect_swipe_bad_duration (state : srv_state)
    (_hwf : state.pins.length = state.numpins) (i : Nat) (hi : i < state.numpins)
    (hbad : ¬(10 ≤ press_duration (state.pins.getD i default) ∧
      press_duration (state.pins.getD i default) ≤ 500)) :
    detect_swipe state = none := by
  cases hd : detect_swipe state with
  | none => rfl
  | some d =>
    rw [detect_swipe_eq_some] at hd
    exact absurd (hd.1 i hi) hbad

theorem detect_swipe_bad_duration_witness :
    ((engine_of [pad_at 0 100, pad_at 50 650, pad_at 110 205]).pins.length
        = (engine_of [pad_at 0 100, pad_at 50 650, pad_at 110 205]).numpins ∧
      1 < (engine_of [pad_at 0 100, pad_at 50 650, pad_at 110 205]).numpins ∧
      press_duration ((engine_of [pad_at 0 100, pad_at 50 650, pad_at 110 205]).pins.getD 1
        default) = 600) ∧
    detect_swipe (engine_of [pad_at 0 100, pad_at 50 650, pad_at 110 205]) = none :=
  ⟨⟨rfl, by decide, by decide⟩,
   detect_swipe_bad_duration (engine_of [pad_at 0 100, pad_at 50 650, pad_at 110 205]) rfl 1
     (by decide) (by decide)⟩

/-! ### Direction of an emitted swipe, and reversal of the pad order -/

/-- C11 (counterexample): an engine with exactly one pad, pressed from 1000 to
1200, emits a swipe whose direction is 0, a third value besides +1 and -1. -/
theorem detect_swipe_direction_zero_counterexample :
    1 ≤ (engine_of [pad_at 1000 1200]).numpins ∧
    detect_swipe (engine_of [pad_at 1000 1200]) = some 0 ∧
    (0 : Int) ≠ 1 ∧ (0 : Int) ≠ -1 := by
  decide

/-- C11 (amended): whenever `detect_swipe` emits a swipe on an engine with at
least two pads, the direction it carries is +1 or -1; on an engine with fewer
than two pads the direction it carries is 0. -/
theorem detect_swipe_direction (state : srv_state) (_hwf : state.pins.length = state.numpins)
    (d : Int) (hd : detect_swipe state = some d) :
    (2 ≤ state.numpins → d = 1 ∨ d = -1) ∧ (state.numpins < 2 → d = 0) := by
  rw [detect_swipe_eq_some] at hd
  constructor
  · intro hn
    exact ((pair_dir_iff_sign d _ _).mp (hd.2.1 1 (by omega) (by omega))).1
  · intro hn
    rcases hd.2.2 with h | h
    · exact h.symm
    · omega

theorem detect_swipe_direction_witness :
    ((engine_of [pad_at 300 400, pad_at 250 350]).pins.length
        = (engine_of [pad_at 300 400, pad_at 250 350]).numpins ∧
      detect_swipe (engine_of [pad_at 300 400, pad_at 250 350]) = some (-1)) ∧
    ((-1 : Int) = 1 ∨ (-1 : Int) = -1) :=
  ⟨⟨rfl, by decide⟩,
   (detect_swipe_direction (engine_of [pad_at 300 400, pad_at 250 350]) rfl (-1)
      (by decide)).1 (by decide)⟩

theorem pair_dir_swap (d : Int) (p0 p : pin_t) (h : pair_dir d p0 p) : pair_dir (-d) p p0 := by
  unfold pair_dir start_delta end_delta to_int32 sub_u32 at *
  omega

theorem getD_reverse_pin (pins : List pin_t) (j : Nat) (hj : j < pins.length) :
    pins.reverse.getD j default = pins.getD (pins.length - 1 - j) default := by
  rw [List.getD_eq_getElem?_getD, List.getD_eq_getElem?_getD, List.getElem?_reverse hj]

theorem detect_swipe_reverse_some (state : srv_state) (hwf : state.pins.length = state.numpins)
    (d : Int) (hd : detect_swipe state = some d) :
    detect_swipe { state with pins := state.pins.reverse } = some (-d) := by
  rw [detect_swipe_eq_some] at hd ⊢
  obtain ⟨h1, h2, h3⟩ := hd
  refine ⟨?_, ?_, ?_⟩
  · intro j hj
    simp only at hj ⊢
    rw [getD_reverse_pin _ _ (by omega)]
    exact h1 _ (by omega)
  · intro j hj hj0
    simp only at hj ⊢
    rw [getD_reverse_pin _ _ (by omega), getD_reverse_pin _ _ (by omega)]
    have h := h2 (state.pins.length - 1 - (j - 1)) (by omega) (by omega)
    have e : state.pins.length - 1 - (j - 1) - 1 = state.pins.length - 1 - j := by omega
    rw [e] at h
    exact pair_dir_swap d _ _ h
  · rcases h3 with h | h
    · exact Or.inl (by omega)
    · exact Or.inr h

/-- C19: running `detect_swipe` on the same pads in reversed index order emits
a swipe exactly when it emits on the original order, and the direction
emitted is the negation of the original one. -/
theorem detect_swipe_reverse (state : srv_state) (hwf : state.pins.length = state.numpins) :
    detect_swipe { state with pins := state.pins.reverse }
        = (detect_swipe state).map (fun d => -d) ∧
    ((detect_swipe { state with pins := state.pins.reverse }).isSome
        = (detect_swipe state).isSome) ∧
    (detect_swipe state = some 1 →
      detect_swipe { state with pins := state.pins.reverse } = some (-1)) ∧
    (detect_swipe state = some (-1) →
      detect_swipe { state with pins := state.pins.reverse } = some 1) := by
  have key : detect_swipe { state with pins := state.pins.reverse }
      = (detect_swipe state).map (fun d => -d) := by
    cases hd : detect_swipe state with
    | some d => exact detect_swipe_reverse_some state hwf d hd
    | none =>
      cases hr : detect_swipe { state with pins := state.pins.reverse } with
      | none => rfl
      | some e =>
        have h := detect_swipe_reverse_some { state with pins := state.pins.reverse }
          (by simpa using hwf) e hr
        simp only [List.reverse_reverse] at h
        rw [hd] at h
        exact Option.noConfusion h
  refine ⟨key, by rw [key]; simp, ?_, ?_⟩
  · intro h; rw [key, h]; rfl
  · intro h; rw [key, h]; rfl

theorem detect_swipe_reverse_witness :
    (engine_of [pad_at 0 100, pad_at 50 150, pad_at 110 205]).pins.length
      = (engine_of [pad_at 0 100, pad_at 50 150, pad_at 110 205]).numpins ∧
    detect_swipe { engine_of [pad_at 0 100, pad_at 50 150, pad_at 110 205] with
        pins := (engine_of [pad_at 0 100, pad_at 50 150, pad_at 110 205]).pins.reverse }
      = some (-1) :=
  ⟨rfl,
   (detect_swipe_reverse (engine_of [pad_at 0 100, pad_at 50 150, pad_at 110 205]) rfl).2.2.1
     (by decide)⟩

/-! ### Pin reader -/

theorem read_pin_skip (pre : List (Nat × Nat)) (rest : List (Nat × Nat))
    (hpre : ∀ a ∈ pre, ¬ to_int32 (a.2 : Int) < 1800) :
    read_pin (pre ++ rest) = read_pin rest := by
  induction pre with
  | nil => rfl
  | cons a pre ih =>
    obtain ⟨r, e⟩ := a
    have h1 : ¬ to_int32 (e : Int) < 1800 := hpre (r, e) (by simp)
    simp only [List.cons_append, read_pin, if_neg h1]
    exact ih (fun a ha => hpre a (by simp [ha]))

theorem to_int32_small (e : Nat) (he : e < 2147483648) : to_int32 (e : Int) = (e : Int) := by
  unfold to_int32
  omega

/-- C17 (counterexample): an attempt that took exactly 1800 microseconds does
not exceed the threshold, yet `read_pin` discards it and returns the reading
of the next attempt. -/
theorem read_pin_boundary_counterexample :
    ¬ (1800 > 1800) ∧
    read_pin [(7, 1800), (9, 100)] = some (9, []) ∧
    read_pin [(7, 1800), (9, 100)] ≠ some (7, [(9, 100)]) := by
  decide

/-- C17 (amended): for attempts whose elapsed time is below `2^31`
microseconds, an attempt is discarded and retried exactly when its elapsed
time is at least 1800 microseconds, and `read_pin` returns the reading of the
first attempt whose elapsed time is strictly below 1800 microseconds, provided
there is one. -/
theorem read_pin_first_undisturbed (pre post : List (Nat × Nat)) (r e : Nat)
    (hpre : ∀ a ∈ pre, 1800 ≤ a.2 ∧ a.2 < 2147483648) (he : e < 1800) :
    read_pin (pre ++ (r, e) :: post) = some (r % 65536, post) ∧
    (∀ (r1 e1 : Nat) (rest : List (Nat × Nat)), e1 < 2147483648 →
      (e1 < 1800 → read_pin ((r1, e1) :: rest) = some (r1 % 65536, rest)) ∧
      (1800 ≤ e1 → read_pin ((r1, e1) :: rest) = read_pin rest)) := by
  have step : ∀ (r1 e1 : Nat) (rest : List (Nat × Nat)), e1 < 2147483648 →
      (e1 < 1800 → read_pin ((r1, e1) :: rest) = some (r1 % 65536, rest)) ∧
      (1800 ≤ e1 → read_pin ((r1, e1) :: rest) = read_pin rest) := by
    intro r1 e1 rest hb
    have h := to_int32_small e1 hb
    constructor
    · intro h1
      have : to_int32 (e1 : Int) < 1800 := by rw [h]; omega
      simp only [read_pin, if_pos this]
    · intro h1
      have : ¬ to_int32 (e1 : Int) < 1800 := by rw [h]; omega
      simp only [read_pin, if_neg this]
  refine ⟨?_, step⟩
  rw [read_pin_skip pre _ ?_]
  · exact (step r e post (by omega)).1 he
  · intro a ha
    have h := hpre a ha
    rw [to_int32_small a.2 h.2]
    omega

theorem read_pin_first_undisturbed_witness :
    ((∀ a ∈ [((3 : Nat), (1800 : Nat)), (4, 5000)], 1800 ≤ a.2 ∧ a.2 < 2147483648) ∧
      (1799 : Nat) < 1800) ∧
    read_pin ([(3, 1800), (4, 5000)] ++ (5, 1799) :: [(6, 10)]) = some (5 % 65536, [(6, 10)]) :=
  ⟨⟨by decide, by decide⟩,
   (read_pin_first_undisturbed [(3, 1800), (4, 5000)] [(6, 10)] 5 1799
      (by decide) (by decide)).1⟩

theorem sort_three (x y z : Nat) :
    (sort [x, y, z] 3).getD (3 >>> 1) 0 = max (min x y) (min (max x y) z) := by
  have h := sort_eq_insertionSort [x, y, z]
  simp only [List.length_cons, List.length_nil] at h
  rw [h]
  by_cases hxy : x ≤ y <;> by_cases hyz : y ≤ z <;> by_cases hxz : x ≤ z <;>
    simp only [List.insertionSort, List.orderedInsert, hxy, hyz, hxz, if_true, if_false,
      Nat.shiftRight_one, Nat.reduceDiv, List.getD_cons_succ, List.getD_cons_zero] <;>
    omega

/-- C18: for every array `a`, `sort(a, n)` with `n` the number of entries is a
total function whose result has the same length, is in ascending order
(`a[i-1] <= a[i]` for `0 < i < n`) and is a permutation of the input;
consequently `read_pin_avg` returns the middle one of the three readings
`read_pin` gave it. -/
theorem sort_sorted_perm (a : List Nat) :
    (sort a a.length).length = a.length ∧
    (sort a a.length).Sorted (· ≤ ·) ∧
    (sort a a.length).Perm a ∧
    (∀ i, 0 < i → i < a.length →
      (sort a a.length).getD (i - 1) 0 ≤ (sort a a.length).getD i 0) ∧
    (∀ (x y z : Nat) (att0 att1 att2 att3 : List (Nat × Nat)),
      read_pin att0 = some (x, att1) → read_pin att1 = some (y, att2) →
      read_pin att2 = some (z, att3) →
      read_pin_avg att0 = some (max (min x y) (min (max x y) z), att3)) := by
  have hs : (sort a a.length).Sorted (· ≤ ·) := by
    rw [sort_eq_insertionSort]; exact List.sorted_insertionSort _ a
  have hp : (sort a a.length).Perm a := by
    rw [sort_eq_insertionSort]; exact List.perm_insertionSort _ a
  refine ⟨hp.length_eq, hs, hp, ?_, ?_⟩
  · intro i hi0 hi
    have hlen := hp.length_eq
    rw [List.getD_eq_getElem _ _ (by omega), List.getD_eq_getElem _ _ (by omega)]
    exact List.Sorted.rel_get_of_le hs (a := ⟨i - 1, by omega⟩) (b := ⟨i, by omega⟩)
      (by simp)
  · intro x y z att0 att1 att2 att3 h0 h1 h2
    simp only [read_pin_avg, read_pin_avg_loop, h0, h1, h2, List.nil_append, List.cons_append]
    rw [sort_three]

theorem sort_sorted_perm_witness :
    (sort [5, 3, 9, 1] [5, 3, 9, 1].length).getD (2 - 1) 0
      ≤ (sort [5, 3, 9, 1] [5, 3, 9, 1].length).getD 2 0 :=
  (sort_sorted_perm [5, 3, 9, 1]).2.2.2.1 2 (by decide) (by decide)

/-! ### Glow patterns -/

/-- C20: the word `JD_GLOW(INSTANT, HALF_SECOND, HALF_SECOND, CH_0, RED)`
decodes with `_JD_GLOW_COLOR` to `JD_BLINK_COLOR_OFF`, not to
`JD_BLINK_COLOR_RED` (the mask keeps two of the three colour bits), and
`JD_GLOW_OFF(CH_1)` decodes with `_JD_GLOW_CHANNEL` to 0, not to 1 (the channel
is shifted by 12, into the duration field, and not by 4). -/
theorem glow_decode_failing_inputs :
    _JD_GLOW_COLOR (JD_GLOW 0 0 0 0 JD_BLINK_COLOR_RED) = JD_BLINK_COLOR_OFF ∧
    _JD_GLOW_COLOR (JD_GLOW 0 0 0 0 JD_BLINK_COLOR_RED) ≠ JD_BLINK_COLOR_RED ∧
    _JD_GLOW_COLOR (JD_GLOW 3 3 3 3 JD_BLINK_COLOR_WHITE) = JD_BLINK_COLOR_CYAN ∧
    _JD_GLOW_CHANNEL (JD_GLOW_OFF 1) = 0 ∧
    _JD_GLOW_CHANNEL (JD_GLOW_OFF 1) ≠ 1 ∧
    _JD_GLOW_DURATION (JD_GLOW_OFF 1) = (1 + 1) * (512 <<< 10) ∧
    _JD_GLOW_SPEED (JD_GLOW 3 2 1 2 JD_BLINK_COLOR_RED) = 3 * 64 ∧
    _JD_GLOW_DURATION (JD_GLOW 3 2 1 2 JD_BLINK_COLOR_RED) = (2 + 1) * (512 <<< 10) ∧
    _JD_GLOW_GAP (JD_GLOW 3 2 1 2 JD_BLINK_COLOR_RED) = (1 + 1) * (512 <<< 10) ∧
    _JD_GLOW_CHANNEL (JD_GLOW 3 2 1 2 JD_BLINK_COLOR_RED) = 2 := by
  decide

/-! ### Loops over the pads -/

theorem getD_set_pin (l : List pin_t) (i j : Nat) (v : pin_t) :
    (l.set i v).getD j default = if i = j ∧ i < l.length then v else l.getD j default := by
  simp only [List.getD_eq_getElem?_getD, List.getElem?_set]
  by_cases hij : i = j
  · subst hij
    by_cases hi : i < l.length
    · simp [hi]
    · simp [hi, List.getElem?_eq_none (not_lt.mp hi)]
  · simp [hij]

theorem getD_set_int (l : List Int) (i j : Nat) (v : Int) :
    (l.set i v).getD j 0 = if i = j ∧ i < l.length then v else l.getD j 0 := by
  simp only [List.getD_eq_getElem?_getD, List.getElem?_set]
  by_cases hij : i = j
  · subst hij
    by_cases hi : i < l.length
    · simp [hi]
    · simp [hi, List.getElem?_eq_none (not_lt.mp hi)]
  · simp [hij]

theorem for_each_pin_length (f : Nat → pin_t → pin_t) :
    ∀ (k i : Nat) (pins : List pin_t), (for_each_pin f k i pins).length = pins.length := by
  intro k
  induction k with
  | zero => intro i pins; rfl
  | succ k ih =>
    intro i pins
    rw [for_each_pin, ih, List.length_set]

theorem for_each_pin_getD (f : Nat → pin_t → pin_t) :
    ∀ (k i : Nat) (pins : List pin_t) (j : Nat), i + k ≤ pins.length →
      (for_each_pin f k i pins).getD j default
        = if i ≤ j ∧ j < i + k then f j (pins.getD j default) else pins.getD j default := by
  intro k
  induction k with
  | zero =>
    intro i pins j _
    have : ¬(i ≤ j ∧ j < i + 0) := by omega
    rw [for_each_pin, if_neg this]
  | succ k ih =>
    intro i pins j h
    rw [for_each_pin, ih (i + 1) _ j (by rw [List.length_set]; omega), getD_set_pin]
    by_cases hij : i = j
    · subst hij
      have h1 : ¬(i + 1 ≤ i ∧ i < i + 1 + k) := by omega
      have h2 : i ≤ i ∧ i < i + (k + 1) := by omega
      have h3 : i = i ∧ i < pins.length := ⟨rfl, by omega⟩
      rw [if_neg h1, if_pos h2, if_pos h3]
    · have h3 : ¬(i = j ∧ i < pins.length) := fun hh => hij hh.1
      rw [if_neg h3]
      by_cases hc : i + 1 ≤ j ∧ j < i + 1 + k
      · rw [if_pos hc, if_pos (by omega)]
      · rw [if_neg hc, if_neg (by omega)]

theorem update_loop_spec (now_ms : Nat) (reads : Nat → Nat) :
    ∀ (k i : Nat) (state : srv_state) (log : List (Nat × Option Int)),
      i + k ≤ state.pins.length → i + k ≤ state.readings.length →
      (update_loop now_ms reads k i state log).1.numpins = state.numpins ∧
      (update_loop now_ms reads k i state log).1.num_baseline_samples
        = state.num_baseline_samples ∧
      (update_loop now_ms reads k i state log).1.pins.length = state.pins.length ∧
      (update_loop now_ms reads k i state log).1.readings.length = state.readings.length ∧
      (∀ j, (update_loop now_ms reads k i state log).1.pins.getD j default
          = if i ≤ j ∧ j < i + k then (update_pin now_ms (reads j) (state.pins.getD j default)).1
            else state.pins.getD j default) ∧
      (∀ j, (update_loop now_ms reads k i state log).1.readings.getD j 0
          = if i ≤ j ∧ j < i + k
            then (update_pin now_ms (reads j) (state.pins.getD j default)).2.1
            else state.readings.getD j 0) ∧
      (update_loop now_ms reads k i state log).2.map Prod.fst
        = log.map Prod.fst ++ (List.range' i k).filter
            (fun j => (update_pin now_ms (reads j) (state.pins.getD j default)).2.2) := by
  intro k
  induction k with
  | zero =>
    intro i state log _ _
    refine ⟨rfl, rfl, rfl, rfl, ?_, ?_, ?_⟩
    · intro j
      have : ¬(i ≤ j ∧ j < i + 0) := by omega
      rw [if_neg this]; rfl
    · intro j
      have : ¬(i ≤ j ∧ j < i + 0) := by omega
      rw [if_neg this]; rfl
    · simp [update_loop]
  | succ k ih =>
    intro i state log hp hr
    rw [update_loop]
    generalize hr0 : update_pin now_ms (reads i) (state.pins.getD i default) = r
    have hpins : ∀ j, (state.pins.set i r.1).getD j default
        = if i = j then r.1 else state.pins.getD j default := by
      intro j
      rw [getD_set_pin]
      by_cases hij : i = j
      · rw [if_pos ⟨hij, by omega⟩, if_pos hij]
      · rw [if_neg (fun hh => hij hh.1), if_neg hij]
    have hreads : ∀ j, (state.readings.set i r.2.1).getD j 0
        = if i = j then r.2.1 else state.readings.getD j 0 := by
      intro j
      rw [getD_set_int]
      by_cases hij : i = j
      · rw [if_pos ⟨hij, by omega⟩, if_pos hij]
      · rw [if_neg (fun hh => hij hh.1), if_neg hij]
    have main : ∀ log1 : List (Nat × Option Int),
        log1.map Prod.fst = log.map Prod.fst ++ (if r.2.2 then [i] else []) →
        (update_loop now_ms reads k (i + 1)
            { state with pins := state.pins.set i r.1,
                         readings := state.readings.set i r.2.1 } log1).1.numpins
          = state.numpins ∧
        (update_loop now_ms reads k (i + 1)
            { state with pins := state.pins.set i r.1,
                         readings := state.readings.set i r.2.1 } log1).1.num_baseline_samples
          = state.num_baseline_samples ∧
        (update_loop now_ms reads k (i + 1)
            { state with pins := state.pins.set i r.1,
                         readings := state.readings.set i r.2.1 } log1).1.pins.length
          = state.pins.length ∧
        (update_loop now_ms reads k (i + 1)
            { state with pins := state.pins.set i r.1,
                         readings := state.readings.set i r.2.1 } log1).1.readings.length
          = state.readings.length ∧
        (∀ j, (update_loop now_ms reads k (i + 1)
            { state with pins := state.pins.set i r.1,
                         readings := state.readings.set i r.2.1 } log1).1.pins.getD j default
            = if i ≤ j ∧ j < i + (k + 1)
              then (update_pin now_ms (reads j) (state.pins.getD j default)).1
              else state.pins.getD j default) ∧
        (∀ j, (update_loop now_ms reads k (i + 1)
            { state with pins := state.pins.set i r.1,
                         readings := state.readings.set i r.2.1 } log1).1.readings.getD j 0
            = if i ≤ j ∧ j < i + (k + 1)
              then (update_pin now_ms (reads j) (state.pins.getD j default)).2.1
              else state.readings.getD j 0) ∧
        (update_loop now_ms reads k (i + 1)
            { state with pins := state.pins.set i r.1,
                         readings := state.readings.set i r.2.1 } log1).2.map Prod.fst
          = log.map Prod.fst ++ (List.range' i (k + 1)).filter
              (fun j => (update_pin now_ms (reads j) (state.pins.getD j default)).2.2) := by
      intro log1 hlog1
      obtain ⟨a1, a2, a3, a4, a5, a6, a7⟩ := ih (i + 1)
        { state with pins := state.pins.set i r.1, readings := state.readings.set i r.2.1 } log1
        (by simp only [List.length_set]; omega) (by simp only [List.length_set]; omega)
      refine ⟨a1, a2, by rw [a3, List.length_set], by rw [a4, List.length_set], ?_, ?_, ?_⟩
      · intro j
        rw [a5 j]
        simp only [hpins]
        by_cases hij : i = j
        · subst hij
          rw [if_neg (by omega), if_pos rfl, if_pos (by omega), hr0]
        · rw [if_neg hij]
          by_cases hc : i + 1 ≤ j ∧ j < i + 1 + k
          · rw [if_pos hc, if_pos (by omega)]
          · rw [if_neg hc, if_neg (by omega)]
      · intro j
        rw [a6 j]
        simp only [hpins, hreads]
        by_cases hij : i = j
        · subst hij
          rw [if_neg (by omega), if_pos rfl, if_pos (by omega), hr0]
        · simp only [if_neg hij]
          by_cases hc : i + 1 ≤ j ∧ j < i + 1 + k
          · rw [if_pos hc, if_pos (by omega)]
          · rw [if_neg hc, if_neg (by omega)]
      · rw [a7, hlog1, List.range'_succ, List.filter_cons, hr0, List.append_assoc]
        congr 1
        have hf : List.filter (fun j => (update_pin now_ms (reads j)
              ((state.pins.set i r.1).getD j default)).2.2) (List.range' (i + 1) k)
            = List.filter (fun j => (update_pin now_ms (reads j)
              (state.pins.getD j default)).2.2) (List.range' (i + 1) k) := by
          apply List.filter_congr
          intro j hj
          have hj1 : i + 1 ≤ j := (List.mem_range'_1.mp hj).1
          rw [hpins, if_neg (by omega)]
        rw [hf]
        cases r.2.2 <;> simp
    by_cases hflag : r.2.2 = true
    · rw [if_pos hflag]
      exact main _ (by simp [hflag])
    · rw [if_neg hflag]
      exact main _ (by simp [hflag])

theorem update_spec (now_us : Nat) (reads : Nat → Nat) (state : srv_state)
    (hp : state.pins.length = state.numpins) (hr : state.readings.length = state.numpins) :
    (update now_us reads state).1.numpins = state.numpins ∧
    (update now_us reads state).1.num_baseline_samples = state.num_baseline_samples ∧
    (update now_us reads state).1.pins.length = state.numpins ∧
    (update now_us reads state).1.readings.length = state.numpins ∧
    (∀ j, j < state.numpins → (update now_us reads state).1.pins.getD j default
      = (update_pin ((now_us >>> 10) % 4294967296) (reads j) (state.pins.getD j default)).1) ∧
    (∀ j, j < state.numpins → (update now_us reads state).1.readings.getD j 0
      = (update_pin ((now_us >>> 10) % 4294967296) (reads j) (state.pins.getD j default)).2.1) ∧
    (update now_us reads state).2.map Prod.fst
      = (List.range state.numpins).filter (fun j =>
          (update_pin ((now_us >>> 10) % 4294967296) (reads j)
            (state.pins.getD j default)).2.2) := by
  obtain ⟨a1, a2, a3, a4, a5, a6, a7⟩ :=
    update_loop_spec ((now_us >>> 10) % 4294967296) reads state.numpins 0 state []
      (by omega) (by omega)
  unfold update
  refine ⟨a1, a2, a3.trans hp, a4.trans hr, ?_, ?_, ?_⟩
  · intro j hj
    rw [a5 j, if_pos (by omega)]
  · intro j hj
    rw [a6 j, if_pos (by omega)]
  · rw [a7, List.range_eq_range']
    rfl

theorem update_pin_frame (now_ms sample : Nat) (p : pin_t) :
    (update_pin now_ms sample p).1.baseline_samples = p.baseline_samples ∧
    (update_pin now_ms sample p).1.baseline_super_samples = p.baseline_super_samples ∧
    (update_pin now_ms sample p).1.baseline = p.baseline ∧
    (update_pin now_ms sample p).1.pin = p.pin := by
  unfold update_pin
  dsimp only
  generalize add_sample p.readings SAMPLE_WINDOW sample = r
  split_ifs <;> exact ⟨rfl, rfl, rfl, rfl⟩

theorem update_pin_wf (now_ms sample : Nat) (p : pin_t) (h : pin_wf p) :
    pin_wf (update_pin now_ms sample p).1 := by
  obtain ⟨h1, h2, h3⟩ := h
  obtain ⟨-, a2, -, -⟩ := update_pin_fields now_ms sample p
  obtain ⟨b1, b2, -, -⟩ := update_pin_frame now_ms sample p
  refine ⟨?_, by rw [b1]; exact h2, by rw [b2]; exact h3⟩
  rw [a2, add_sample_eq p.readings SAMPLE_WINDOW sample h1 (by decide)]
  simp only [List.length_append, List.length_tail, List.length_singleton, h1]
  decide

theorem update_baseline_pin_spec (n : Nat) (p : pin_t) (h : pin_wf p) :
    (update_baseline_pin n p).baseline_samples = p.baseline_samples.tail ++ [p.reading] ∧
    (update_baseline_pin n p).reading = p.reading ∧
    (update_baseline_pin n p).readings = p.readings ∧
    (update_baseline_pin n p).ticks_pressed = p.ticks_pressed ∧
    (update_baseline_pin n p).start_press = p.start_press ∧
    (update_baseline_pin n p).end_press = p.end_press ∧
    (n = 0 →
      (update_baseline_pin n p).baseline_super_samples
        = p.baseline_super_samples.tail ++ [median_ref (p.baseline_samples.tail ++ [p.reading])] ∧
      (update_baseline_pin n p).baseline
        = median_ref (p.baseline_super_samples.tail
            ++ [median_ref (p.baseline_samples.tail ++ [p.reading])])) ∧
    (n ≠ 0 →
      (update_baseline_pin n p).baseline_super_samples = p.baseline_super_samples ∧
      (update_baseline_pin n p).baseline = p.baseline) ∧
    pin_wf (update_baseline_pin n p) := by
  obtain ⟨h1, h2, h3⟩ := h
  have e1 := add_sample_eq p.baseline_samples BASELINE_SAMPLES p.reading h2 (by decide)
  have e2 := add_sample_eq p.baseline_super_samples BASELINE_SUPER_SAMPLES
    (median_ref (p.baseline_samples.tail ++ [p.reading])) h3 (by decide)
  have l1 : (p.baseline_samples.tail ++ [p.reading]).length = BASELINE_SAMPLES := by
    simp only [List.length_append, List.length_tail, List.length_singleton, h2]; decide
  have l2 : (p.baseline_super_samples.tail
      ++ [median_ref (p.baseline_samples.tail ++ [p.reading])]).length
        = BASELINE_SUPER_SAMPLES := by
    simp only [List.length_append, List.length_tail, List.length_singleton, h3]; decide
  unfold update_baseline_pin
  dsimp only
  rw [e1]
  dsimp only
  rw [e2]
  by_cases hn : n = 0
  · rw [if_pos hn]
    exact ⟨rfl, rfl, rfl, rfl, rfl, rfl, fun _ => ⟨rfl, rfl⟩, fun h => absurd hn h,
      h1, l1, l2⟩
  · rw [if_neg hn]
    exact ⟨rfl, rfl, rfl, rfl, rfl, rfl, fun h => absurd h hn, fun _ => ⟨rfl, rfl⟩,
      h1, l1, h3⟩

theorem update_baseline_spec (state : srv_state) (hp : state.pins.length = state.numpins) :
    (update_baseline state).numpins = state.numpins ∧
    (update_baseline state).num_baseline_samples
      = next_baseline_count state.num_baseline_samples ∧
    (update_baseline state).pins.length = state.numpins ∧
    (update_baseline state).readings = state.readings ∧
    (∀ j, j < state.numpins → (update_baseline state).pins.getD j default
      = update_baseline_pin (next_baseline_count state.num_baseline_samples)
          (state.pins.getD j default)) := by
  unfold update_baseline
  dsimp only
  refine ⟨rfl, rfl, by rw [for_each_pin_length]; exact hp, rfl, ?_⟩
  intro j hj
  rw [for_each_pin_getD _ _ _ _ _ (by omega), if_pos (by omega)]

theorem next_baseline_count_eq (c : Nat) (hc : c < 20) :
    next_baseline_count c = (c + 1) % 20 := by
  unfold next_baseline_count BASELINE_SAMPLES
  dsimp only
  split_ifs <;> omega

theorem update_state_wf (now_us : Nat) (reads : Nat → Nat) (state : srv_state)
    (h : state_wf state) : state_wf (update now_us reads state).1 := by
  obtain ⟨hp, hr, hw⟩ := h
  obtain ⟨a1, -, a3, a4, a5, -, -⟩ := update_spec now_us reads state hp hr
  refine ⟨by rw [a3, a1], by rw [a4, a1], ?_⟩
  intro j hj
  rw [a1] at hj
  rw [a5 j hj]
  exact update_pin_wf _ _ _ (hw j hj)

theorem update_baseline_state_wf (state : srv_state) (h : state_wf state) :
    state_wf (update_baseline state) := by
  obtain ⟨hp, hr, hw⟩ := h
  obtain ⟨a1, -, a3, a4, a5⟩ := update_baseline_spec state hp
  refine ⟨by rw [a3, a1], by rw [a4, a1]; exact hr, ?_⟩
  intro j hj
  rw [a1] at hj
  rw [a5 j hj]
  exact (update_baseline_pin_spec _ _ (hw j hj)).2.2.2.2.2.2.2.2

theorem engine_run_invariant (steps : List engine_step) :
    ∀ (state : srv_state) (c : Nat), state_wf state → state.num_baseline_samples = c % 20 →
      state_wf (engine_run state steps) ∧
      (engine_run state steps).numpins = state.numpins ∧
      (engine_run state steps).num_baseline_samples = (c + baseline_calls steps) % 20 := by
  induction steps with
  | nil => intro state c h hc; exact ⟨h, rfl, hc⟩
  | cons s rest ih =>
    intro state c h hc
    cases s with
    | sample now_us reads =>
      have hu := update_spec now_us reads state h.1 h.2.1
      obtain ⟨b1, b2, b3⟩ := ih (update now_us reads state).1 c
        (update_state_wf now_us reads state h) (by rw [hu.2.1]; exact hc)
      exact ⟨b1, b2.trans hu.1, b3⟩
    | baseline =>
      have hu := update_baseline_spec state h.1
      obtain ⟨b1, b2, b3⟩ := ih (update_baseline state) (c + 1)
        (update_baseline_state_wf state h)
        (by rw [hu.2.1, hc, next_baseline_count_eq _ (Nat.mod_lt _ (by decide))]; omega)
      refine ⟨b1, b2.trans hu.1, ?_⟩
      rw [engine_run, b3, baseline_calls]
      congr 1
      omega

/-- C13: over every sequence of `update` and `update_baseline` steps from an
engine whose sample counter is 0, the counter equals the number of
`update_baseline` calls made so far modulo 20, so it wraps to 0 exactly in
every 20th call. `update` never changes a pad's baseline or either baseline
window. Every `update_baseline` call pushes the pad's filtered reading into
the level-1 window; the call in which the counter wraps also pushes the
level-1 median just produced into the level-2 window and sets the baseline to
the level-2 median, and every other call leaves the level-2 window and the
baseline as they are. -/
theorem baseline_changes_only_on_wrap (state0 : srv_state) (hwf : state_wf state0)
    (h0 : state0.num_baseline_samples = 0) (steps : List engine_step) :
    state_wf (engine_run state0 steps) ∧
    (engine_run state0 steps).numpins = state0.numpins ∧
    (engine_run state0 steps).num_baseline_samples = baseline_calls steps % 20 ∧
    ((update_baseline (engine_run state0 steps)).num_baseline_samples = 0
      ↔ (baseline_calls steps + 1) % 20 = 0) ∧
    (∀ (now_us : Nat) (reads : Nat → Nat) (j : Nat), j < state0.numpins →
      ((update now_us reads (engine_run state0 steps)).1.pins.getD j default).baseline
        = ((engine_run state0 steps).pins.getD j default).baseline ∧
      ((update now_us reads (engine_run state0 steps)).1.pins.getD j default).baseline_samples
        = ((engine_run state0 steps).pins.getD j default).baseline_samples ∧
      ((update now_us reads (engine_run state0 steps)).1.pins.getD j
          default).baseline_super_samples
        = ((engine_run state0 steps).pins.getD j default).baseline_super_samples) ∧
    (∀ j, j < state0.numpins →
      ((update_baseline (engine_run state0 steps)).pins.getD j default).baseline_samples
        = ((engine_run state0 steps).pins.getD j default).baseline_samples.tail
            ++ [((engine_run state0 steps).pins.getD j default).reading] ∧
      ((update_baseline (engine_run state0 steps)).pins.getD j default).reading
        = ((engine_run state0 steps).pins.getD j default).reading ∧
      ((update_baseline (engine_run state0 steps)).pins.getD j default).readings
        = ((engine_run state0 steps).pins.getD j default).readings ∧
      ((baseline_calls steps + 1) % 20 = 0 →
        ((update_baseline (engine_run state0 steps)).pins.getD j default).baseline_super_samples
          = ((engine_run state0 steps).pins.getD j default).baseline_super_samples.tail
              ++ [median_ref ((update_baseline (engine_run state0 steps)).pins.getD j
                    default).baseline_samples] ∧
        ((update_baseline (engine_run state0 steps)).pins.getD j default).baseline
          = median_ref ((update_baseline (engine_run state0 steps)).pins.getD j
              default).baseline_super_samples) ∧
      ((baseline_calls steps + 1) % 20 ≠ 0 →
        ((update_baseline (engine_run state0 steps)).pins.getD j default).baseline_super_samples
          = ((engine_run state0 steps).pins.getD j default).baseline_super_samples ∧
        ((update_baseline (engine_run state0 steps)).pins.getD j default).baseline
          = ((engine_run state0 steps).pins.getD j default).baseline)) := by
  obtain ⟨w, hn, hc⟩ := engine_run_invariant steps state0 0 hwf (by rw [h0])
  rw [Nat.zero_add] at hc
  generalize engine_run state0 steps = st at w hn hc
  obtain ⟨hp, hr, hw⟩ := w
  have hb := update_baseline_spec st hp
  have hcnt : next_baseline_count st.num_baseline_samples = (baseline_calls steps + 1) % 20 := by
    rw [hc, next_baseline_count_eq _ (Nat.mod_lt _ (by decide))]
    omega
  refine ⟨⟨hp, hr, hw⟩, hn, hc, by rw [hb.2.1, hcnt], ?_, ?_⟩
  · intro now_us reads j hj
    rw [← hn] at hj
    rw [(update_spec now_us reads st hp hr).2.2.2.2.1 j hj]
    obtain ⟨b1, b2, b3, -⟩ := update_pin_frame ((now_us >>> 10) % 4294967296) (reads j)
      (st.pins.getD j default)
    exact ⟨b3, b1, b2⟩
  · intro j hj
    rw [← hn] at hj
    rw [hb.2.2.2.2 j hj, hcnt]
    obtain ⟨c1, c2, c3, -, -, -, c7, c8, -⟩ :=
      update_baseline_pin_spec ((baseline_calls steps + 1) % 20) (st.pins.getD j default)
        (hw j hj)
    refine ⟨c1, c2, c3, ?_, c8⟩
    intro hz
    obtain ⟨d1, d2⟩ := c7 hz
    rw [c1, d1]
    exact ⟨rfl, d2⟩

theorem baseline_changes_only_on_wrap_witness :
    (state_wf (engine_of [default]) ∧ (engine_of [default]).num_baseline_samples = 0) ∧
    (engine_run (engine_of [default])
        [engine_step.baseline, engine_step.sample 5000 (fun _ => 300),
          engine_step.baseline]).num_baseline_samples
      = baseline_calls [engine_step.baseline, engine_step.sample 5000 (fun _ => 300),
          engine_step.baseline] % 20 :=
  have hwf : state_wf (engine_of [default]) :=
    ⟨rfl, rfl, fun j hj => by
      have hj0 : j = 0 := by
        have : j < 1 := hj
        omega
      subst hj0
      exact ⟨rfl, rfl, rfl⟩⟩
  ⟨⟨hwf, rfl⟩,
   (baseline_changes_only_on_wrap (engine_of [default]) hwf rfl
      [engine_step.baseline, engine_step.sample 5000 (fun _ => 300),
        engine_step.baseline]).2.2.1⟩

/-! ### Results buffer -/

theorem update_pin_out (now_ms sample : Nat) (p : pin_t) :
    (update_pin now_ms sample p).2.1
      = ((update_pin now_ms sample p).1.reading : Int) - (p.baseline : Int) := by
  unfold update_pin
  dsimp only
  generalize add_sample p.readings SAMPLE_WINDOW sample = r
  split_ifs <;> rfl

/-- C15 (counterexample): in the engine `stale_example` a pass of
`multitouch_process` that samples and also runs `update_baseline` leaves
`readings[0] = 100`, while the pad's filtered reading is 100 and its baseline
has just become 100, so reading minus baseline is 0. -/
theorem process_stale_reading_counterexample :
    (multitouch_process true true 0 (fun _ => 100) stale_example).1.readings.getD 0 0 = 100 ∧
    ((multitouch_process true true 0 (fun _ => 100) stale_example).1.pins.getD 0
      default).reading = 100 ∧
    ((multitouch_process true true 0 (fun _ => 100) stale_example).1.pins.getD 0
      default).baseline = 100 ∧
    (multitouch_process true true 0 (fun _ => 100) stale_example).1.readings.getD 0 0
      ≠ (((multitouch_process true true 0 (fun _ => 100) stale_example).1.pins.getD 0
            default).reading : Int)
        - (((multitouch_process true true 0 (fun _ => 100) stale_example).1.pins.getD 0
            default).baseline : Int) := by
  set_option maxRecDepth 1000000 in decide

/-- C15 (amended): after every pass of `multitouch_process` that samples, for
every pad `i` the entry `readings[i]` equals the pad's current filtered reading
minus the baseline the pad had when `update` ran (the baseline before the
pass); it equals the current reading minus the current baseline whenever the
pass runs no `update_baseline` or the sample counter does not wrap to 0 in
it. -/
theorem process_readings (baseline_due : Bool) (now_us : Nat) (reads : Nat → Nat)
    (state : srv_state) (hwf : state_wf state) (j : Nat) (hj : j < state.numpins) :
    (multitouch_process true baseline_due now_us reads state).1.readings.getD j 0
      = (((multitouch_process true baseline_due now_us reads state).1.pins.getD j
            default).reading : Int)
        - ((state.pins.getD j default).baseline : Int) ∧
    (baseline_due = false ∨ next_baseline_count state.num_baseline_samples ≠ 0 →
      (multitouch_process true baseline_due now_us reads state).1.readings.getD j 0
        = (((multitouch_process true baseline_due now_us reads state).1.pins.getD j
              default).reading : Int)
          - (((multitouch_process true baseline_due now_us reads state).1.pins.getD j
              default).baseline : Int)) := by
  obtain ⟨a1, a2, a3, -, a5, a6, -⟩ := update_spec now_us reads state hwf.1 hwf.2.1
  have hout := update_pin_out ((now_us >>> 10) % 4294967296) (reads j)
    (state.pins.getD j default)
  have hbase := (update_pin_frame ((now_us >>> 10) % 4294967296) (reads j)
    (state.pins.getD j default)).2.2.1
  have hU : (update now_us reads state).1.readings.getD j 0
      = (((update now_us reads state).1.pins.getD j default).reading : Int)
        - ((state.pins.getD j default).baseline : Int) := by
    rw [a6 j hj, a5 j hj]; exact hout
  have hUb : ((update now_us reads state).1.pins.getD j default).baseline
      = (state.pins.getD j default).baseline := by
    rw [a5 j hj]; exact hbase
  cases baseline_due with
  | false =>
    have e : multitouch_process true false now_us reads state = update now_us reads state := rfl
    rw [e]
    exact ⟨hU, fun _ => by rw [hU, hUb]⟩
  | true =>
    have e : (multitouch_process true true now_us reads state).1
        = update_baseline (update now_us reads state).1 := rfl
    rw [e]
    have hwfU := update_state_wf now_us reads state hwf
    obtain ⟨-, -, -, b4, b5⟩ := update_baseline_spec (update now_us reads state).1
      (by rw [a3, a1])
    have hjU : j < (update now_us reads state).1.numpins := by rw [a1]; exact hj
    obtain ⟨-, c2, -, -, -, -, -, c8, -⟩ := update_baseline_pin_spec
      (next_baseline_count (update now_us reads state).1.num_baseline_samples)
      ((update now_us reads state).1.pins.getD j default) (hwfU.2.2 j hjU)
    rw [b4, b5 j hjU, c2]
    refine ⟨hU, ?_⟩
    intro h
    rcases h with h | h
    · exact Bool.noConfusion h
    · have h1 : next_baseline_count (update now_us reads state).1.num_baseline_samples ≠ 0 := by
        rw [a2]; exact h
      rw [(c8 h1).2, hU, hUb]

theorem process_readings_witness :
    (state_wf stale_example ∧ 0 < stale_example.numpins) ∧
    (multitouch_process true true 0 (fun _ => 100) stale_example).1.readings.getD 0 0
      = (((multitouch_process true true 0 (fun _ => 100) stale_example).1.pins.getD 0
            default).reading : Int)
        - ((stale_example.pins.getD 0 default).baseline : Int) :=
  have hwf : state_wf stale_example :=
    ⟨rfl, rfl, fun j hj => by
      have hj0 : j = 0 := by
        have : j < 1 := hj
        omega
      subst hj0
      exact ⟨rfl, rfl, rfl⟩⟩
  ⟨⟨hwf, by decide⟩,
   (process_readings true 0 (fun _ => 100) stale_example hwf 0 (by decide)).1⟩

/-! ### Calibration -/

theorem median_ref_replicate (n r : Nat) (hn : 1 ≤ n) : median_ref (List.replicate n r) = r := by
  have hs : (List.replicate n r).Sorted (· ≤ ·) := by
    rw [List.Sorted, List.pairwise_replicate]
    exact Or.inr le_rfl
  unfold median_ref
  rw [List.Sorted.insertionSort_eq hs, List.length_replicate,
    List.getD_eq_getElem _ _ (by rw [List.length_replicate]; omega)]
  simp

theorem shift_fill (W a r : Nat) (ha : a ≤ W) (hW : 1 ≤ W) :
    (List.replicate (W - a) 0 ++ List.replicate a r).tail ++ [r]
      = List.replicate (W - min (a + 1) W) 0 ++ List.replicate (min (a + 1) W) r := by
  by_cases haW : a = W
  · subst haW
    obtain ⟨b, rfl⟩ : ∃ b, a = b + 1 := ⟨a - 1, by omega⟩
    have e1 : b + 1 - (b + 1) = 0 := by omega
    have e2 : min (b + 1 + 1) (b + 1) = b + 1 := by omega
    rw [e1, e2, e1]
    simp only [List.replicate_zero, List.nil_append]
    rw [List.replicate_succ, List.tail_cons, ← List.replicate_succ', List.replicate_succ]
  · obtain ⟨k, hk⟩ : ∃ k, W - a = k + 1 := ⟨W - a - 1, by omega⟩
    have e2 : min (a + 1) W = a + 1 := by omega
    have e3 : W - (a + 1) = k := by omega
    rw [hk, e2, e3, List.replicate_succ, List.cons_append, List.tail_cons, List.append_assoc,
      ← List.replicate_succ']

theorem calibrate_reads_spec (reads : Nat → Nat) (state : srv_state)
    (hp : state.pins.length = state.numpins) :
    (calibrate_reads reads state).numpins = state.numpins ∧
    (calibrate_reads reads state).num_baseline_samples = state.num_baseline_samples ∧
    (calibrate_reads reads state).pins.length = state.numpins ∧
    (calibrate_reads reads state).readings = state.readings ∧
    (∀ j, j < state.numpins → (calibrate_reads reads state).pins.getD j default
      = { state.pins.getD j default with reading := reads j }) := by
  unfold calibrate_reads
  dsimp only
  refine ⟨rfl, rfl, by rw [for_each_pin_length]; exact hp, rfl, ?_⟩
  intro j hj
  rw [for_each_pin_getD _ _ _ _ _ (by omega), if_pos (by omega)]

theorem calib_step_inv (r N n : Nat) (state : srv_state) (h : calib_inv r N n state) :
    calib_inv r N (n + 1) (update_baseline (calibrate_reads (fun _ => r) state)) := by
  obtain ⟨hN, hp, hc, hpads⟩ := h
  obtain ⟨a1, a2, a3, -, a5⟩ := calibrate_reads_spec (fun _ => r) state (hp.trans hN.symm)
  obtain ⟨b1, b2, b3, -, b5⟩ :=
    update_baseline_spec (calibrate_reads (fun _ => r) state) (by rw [a3, a1])
  have hcnt : next_baseline_count (calibrate_reads (fun _ => r) state).num_baseline_samples
      = (n + 1) % 20 := by
    rw [a2, hc, next_baseline_count_eq _ (Nat.mod_lt _ (by decide))]
    omega
  refine ⟨by rw [b1, a1, hN], by rw [b3, a1, hN], by rw [b2, hcnt], ?_⟩
  intro j hj
  obtain ⟨p1, p2, p3, p4⟩ := hpads j hj
  have hj1 : j < state.numpins := by rw [hN]; exact hj
  have hj2 : j < (calibrate_reads (fun _ => r) state).numpins := by rw [a1]; exact hj1
  rw [b5 j hj2, a5 j hj1, hcnt]
  have hwf : pin_wf { state.pins.getD j default with reading := r } := by
    refine ⟨p1, ?_, ?_⟩
    · show (state.pins.getD j default).baseline_samples.length = BASELINE_SAMPLES
      rw [p2]
      simp only [List.length_append, List.length_replicate, BASELINE_SAMPLES]
      omega
    · show (state.pins.getD j default).baseline_super_samples.length = BASELINE_SUPER_SAMPLES
      rw [p3]
      simp only [List.length_append, List.length_replicate, BASELINE_SUPER_SAMPLES]
      omega
  obtain ⟨c1, -, c3, -, -, -, c7, c8, -⟩ :=
    update_baseline_pin_spec ((n + 1) % 20) { state.pins.getD j default with reading := r } hwf
  have hbs : (state.pins.getD j default).baseline_samples.tail ++ [r]
      = List.replicate (20 - min (n + 1) 20) 0 ++ List.replicate (min (n + 1) 20) r := by
    rw [p2, shift_fill 20 (min n 20) r (by omega) (by decide)]
    have e : min (min n 20 + 1) 20 = min (n + 1) 20 := by omega
    rw [e]
  have c1' : (update_baseline_pin ((n + 1) % 20)
      { state.pins.getD j default with reading := r }).baseline_samples
        = List.replicate (20 - min (n + 1) 20) 0 ++ List.replicate (min (n + 1) 20) r :=
    c1.trans hbs
  refine ⟨by rw [c3]; exact p1, c1', ?_⟩
  by_cases hz : (n + 1) % 20 = 0
  · obtain ⟨d1, d2⟩ := c7 hz
    have hfull : min (n + 1) 20 = 20 := by omega
    have htmp : median_ref ((state.pins.getD j default).baseline_samples.tail ++ [r]) = r := by
      rw [hbs, hfull]
      simp only [Nat.sub_self, List.replicate_zero, List.nil_append]
      exact median_ref_replicate 20 r (by decide)
    have hsup : (update_baseline_pin ((n + 1) % 20)
        { state.pins.getD j default with reading := r }).baseline_super_samples
          = List.replicate (10 - min ((n + 1) / 20) 10) 0
            ++ List.replicate (min ((n + 1) / 20) 10) r := by
      rw [d1]
      show (state.pins.getD j default).baseline_super_samples.tail
          ++ [median_ref ((state.pins.getD j default).baseline_samples.tail ++ [r])] = _
      rw [htmp, p3, shift_fill 10 (min (n / 20) 10) r (by omega) (by decide)]
      have e : min (min (n / 20) 10 + 1) 10 = min ((n + 1) / 20) 10 := by omega
      rw [e]
    refine ⟨hsup, fun _ => ?_⟩
    rw [d2, d1]
  · obtain ⟨d1, d2⟩ := c8 hz
    have hdiv : (n + 1) / 20 = n / 20 := by omega
    refine ⟨?_, fun h20 => ?_⟩
    · rw [d1, hdiv]; exact p3
    · rw [d2, d1]
      exact p4 (by omega)

theorem calibrate_inner_inv (r N : Nat) :
    ∀ (m j n : Nat) (state : srv_state), calib_inv r N n state →
      calib_inv r N (n + m) (calibrate_inner (fun _ _ => r) m j state) := by
  intro m
  induction m with
  | zero => intro j n state h; exact h
  | succ m ih =>
    intro j n state h
    have h1 := ih (j + 1) (n + 1) _ (calib_step_inv r N n state h)
    have e : n + 1 + m = n + (m + 1) := by omega
    rw [e] at h1
    exact h1

theorem calibrate_outer_inv (r N : Nat) :
    ∀ (m k n : Nat) (state : srv_state), calib_inv r N n state →
      calib_inv r N (n + 20 * m) (calibrate_outer (fun _ _ _ => r) m k state) := by
  intro m
  induction m with
  | zero => intro k n state h; exact h
  | succ m ih =>
    intro k n state h
    have h1 := ih (k + 1) (n + 20) _ (calibrate_inner_inv r N BASELINE_SAMPLES 0 n state h)
    have e : n + 20 + 20 * m = n + 20 * (m + 1) := by omega
    rw [e] at h1
    exact h1

theorem calibrate_constant_baseline (r N : Nat) (state : srv_state)
    (h : calib_inv r N 0 state) :
    (calibrate (fun _ _ _ => r) state).1.numpins = N ∧
    (calibrate (fun _ _ _ => r) state).1.pins.length = N ∧
    (∀ j, j < N →
      ((calibrate (fun _ _ _ => r) state).1.pins.getD j default).baseline = r) ∧
    (calibrate (fun _ _ _ => r) state).2 = if 0 < N then some r else none := by
  have h1 := calibrate_outer_inv r N BASELINE_SUPER_SAMPLES 0 0 state h
  obtain ⟨a1, a2, -, a4⟩ := h1
  have e1 : (calibrate (fun _ _ _ => r) state).1
      = calibrate_outer (fun _ _ _ => r) BASELINE_SUPER_SAMPLES 0 state := rfl
  have hall : ∀ j, j < N →
      ((calibrate (fun _ _ _ => r) state).1.pins.getD j default).baseline = r := by
    intro j hj
    obtain ⟨-, -, p3, p4⟩ := a4 j hj
    have hb := p4 (by decide)
    rw [p3] at hb
    rw [e1, hb]
    have e : (0 + 20 * BASELINE_SUPER_SAMPLES) / 20 = 10 := by decide
    rw [e]
    simp only [Nat.min_self, Nat.sub_self, List.replicate_zero, List.nil_append]
    exact median_ref_replicate 10 r (by decide)
  refine ⟨a1, a2, hall, ?_⟩
  have e2 : (calibrate (fun _ _ _ => r) state).2
      = if 0 < (calibrate (fun _ _ _ => r) state).1.numpins
        then some ((calibrate (fun _ _ _ => r) state).1.pins.getD 0 default).baseline
        else none := rfl
  rw [e2, e1, a1]
  by_cases hN : 0 < N
  · rw [if_pos hN, if_pos hN, ← e1, hall 0 hN]
  · rw [if_neg hN, if_neg hN]

theorem calibrate_frame (reads : Nat → Nat → Nat → Nat) (state : srv_state)
    (hp : state.pins.length = state.numpins) :
    (calibrate reads state).1.numpins = state.numpins ∧
    (calibrate reads state).1.pins.length = state.numpins ∧
    (calibrate reads state).1.readings = state.readings := by
  have step : ∀ (rd : Nat → Nat) (st : srv_state), st.pins.length = st.numpins →
      (update_baseline (calibrate_reads rd st)).numpins = st.numpins ∧
      (update_baseline (calibrate_reads rd st)).pins.length = st.numpins ∧
      (update_baseline (calibrate_reads rd st)).readings = st.readings := by
    intro rd st h
    obtain ⟨a1, -, a3, a4, -⟩ := calibrate_reads_spec rd st h
    obtain ⟨b1, -, b3, b4, -⟩ := update_baseline_spec (calibrate_reads rd st) (by rw [a3, a1])
    exact ⟨b1.trans a1, b3.trans a1, b4.trans a4⟩
  have inner : ∀ (rd : Nat → Nat → Nat) (m j : Nat) (st : srv_state),
      st.pins.length = st.numpins →
      (calibrate_inner rd m j st).numpins = st.numpins ∧
      (calibrate_inner rd m j st).pins.length = st.numpins ∧
      (calibrate_inner rd m j st).readings = st.readings := by
    intro rd m
    induction m with
    | zero => intro j st h; exact ⟨rfl, h, rfl⟩
    | succ m ih =>
      intro j st h
      obtain ⟨s1, s2, s3⟩ := step (rd j) st h
      obtain ⟨i1, i2, i3⟩ := ih (j + 1) _ (s2.trans s1.symm)
      exact ⟨i1.trans s1, i2.trans s1, i3.trans s3⟩
  have outer : ∀ (m k : Nat) (st : srv_state), st.pins.length = st.numpins →
      (calibrate_outer reads m k st).numpins = st.numpins ∧
      (calibrate_outer reads m k st).pins.length = st.numpins ∧
      (calibrate_outer reads m k st).readings = st.readings := by
    intro m
    induction m with
    | zero => intro k st h; exact ⟨rfl, h, rfl⟩
    | succ m ih =>
      intro k st h
      obtain ⟨s1, s2, s3⟩ := inner (reads k) BASELINE_SAMPLES 0 st h
      obtain ⟨i1, i2, i3⟩ := ih (k + 1) _ (s2.trans s1.symm)
      exact ⟨i1.trans s1, i2.trans s1, i3.trans s3⟩
  exact outer BASELINE_SUPER_SAMPLES 0 state hp

theorem count_pins_spec (pins : List Nat) (n : Nat) (hn : n ≤ 255)
    (hsent : pins.getD n 0xff = 0xff) :
    ∀ (fuel i : Nat), i ≤ n → n - i < fuel →
      (∀ j, i ≤ j → j < n → pins.getD j 0xff ≠ 0xff) →
      count_pins pins fuel i = some n := by
  intro fuel
  induction fuel with
  | zero => intro i _ h _; omega
  | succ fuel ih =>
    intro i hi hf hb
    rw [count_pins]
    by_cases hin : i = n
    · subst hin
      rw [if_neg (by rw [hsent]; exact fun h => h rfl)]
    · rw [if_pos (hb i le_rfl (by omega))]
      have e : (i + 1) % 256 = i + 1 := by omega
      rw [e]
      exact ih (i + 1) (by omega) (by omega) (fun j h1 h2 => hb j (by omega) h2)

theorem init_pads_getD (pins : List Nat) (n j : Nat) (hj : j < n) :
    (for_each_pin (fun i p => { p with pin := pins.getD i 0xff }) n 0
        (List.replicate n default)).getD j default
      = { (default : pin_t) with pin := pins.getD j 0xff } := by
  rw [for_each_pin_getD _ _ _ _ _ (by simp), if_pos (by omega)]
  have : (List.replicate n (default : pin_t)).getD j default = default := by
    rw [List.getD_eq_getElem _ _ (by simpa using hj)]
    simp
  rw [this]

theorem zeros_fill (W r : Nat) :
    fresh_window W = List.replicate (W - min 0 W) 0 ++ List.replicate (min 0 W) r := by
  simp [fresh_window]

/-- C12: on an engine whose pads all have zero-filled baseline windows and
whose sample counter is 0, `calibrate` with every averaged acquisition
returning the same value `r` ends with `baseline = r` for every pad (and with
at least one pad its last line reads `r` from `pins[0]`); this holds in
particular for the engine `multitouch_init` builds from any pin list. -/
theorem calibrate_constant (r : Nat) (state : srv_state)
    (hp : state.pins.length = state.numpins) (hc : state.num_baseline_samples = 0)
    (hfresh : ∀ j, j < state.numpins →
      (state.pins.getD j default).readings.length = SAMPLE_WINDOW ∧
      (state.pins.getD j default).baseline_samples = fresh_window BASELINE_SAMPLES ∧
      (state.pins.getD j default).baseline_super_samples
        = fresh_window BASELINE_SUPER_SAMPLES) :
    (calibrate (fun _ _ _ => r) state).1.numpins = state.numpins ∧
    (∀ j, j < state.numpins →
      ((calibrate (fun _ _ _ => r) state).1.pins.getD j default).baseline = r) ∧
    (0 < state.numpins → (calibrate (fun _ _ _ => r) state).2 = some r) ∧
    (∀ (pins : List Nat) (n : Nat), count_pins pins 256 0 = some n →
      ∃ st, multitouch_init pins (fun _ _ _ => r)
          = some (st, if 0 < n then some r else none) ∧ st.numpins = n ∧
        ∀ j, j < n → (st.pins.getD j default).baseline = r) := by
  have hinv : calib_inv r state.numpins 0 state := by
    refine ⟨rfl, hp, by rw [hc], ?_⟩
    intro j hj
    obtain ⟨f1, f2, f3⟩ := hfresh j hj
    refine ⟨f1, ?_, ?_, fun h => absurd h (by decide)⟩
    · rw [f2]; exact zeros_fill 20 r
    · rw [f3]; exact zeros_fill 10 r
  obtain ⟨a1, -, a3, a4⟩ := calibrate_constant_baseline r state.numpins state hinv
  refine ⟨a1, a3, fun hpos => by rw [a4, if_pos hpos], ?_⟩
  intro pins n hcount
  unfold multitouch_init
  rw [hcount]
  dsimp only
  have hinit : calib_inv r n 0
      { numpins := n, num_baseline_samples := 0,
        pins := for_each_pin (fun i p => { p with pin := pins.getD i 0xff }) n 0
          (List.replicate n default),
        readings := List.replicate n 0, nextSample := 0, next_baseline_sample := 0 } := by
    refine ⟨rfl, by simp [for_each_pin_length], rfl, ?_⟩
    intro j hj
    dsimp only
    rw [init_pads_getD pins n j hj]
    exact ⟨rfl, zeros_fill 20 r, zeros_fill 10 r, fun h => absurd h (by decide)⟩
  obtain ⟨b1, -, b3, b4⟩ := calibrate_constant_baseline r n _ hinit
  generalize calibrate (fun _ _ _ => r) _ = c at b1 b3 b4 ⊢
  refine ⟨c.1, ?_, b1, b3⟩
  rw [← b4]

theorem calibrate_constant_witness :
    ((engine_of [default, default]).pins.length = (engine_of [default, default]).numpins ∧
      (engine_of [default, default]).num_baseline_samples = 0) ∧
    ((calibrate (fun _ _ _ => 1234) (engine_of [default, default])).1.pins.getD 1
      default).baseline = 1234 :=
  ⟨⟨rfl, rfl⟩,
   (calibrate_constant 1234 (engine_of [default, default]) rfl rfl
      (fun j hj => by
        have hj2 : j < 2 := hj
        have h01 : j = 0 ∨ j = 1 := by omega
        rcases h01 with h | h <;> subst h <;> exact ⟨rfl, rfl, rfl⟩)).2.1 1 (by decide)⟩

/-! ### Initialisation -/

theorem multitouch_init_result (pins : List Nat) (reads : Nat → Nat → Nat → Nat) (n : Nat)
    (hn : n ≤ 255) (hbefore : ∀ j, j < n → pins.getD j 0xff ≠ 0xff)
    (hsent : pins.getD n 0xff = 0xff) :
    ∃ st, multitouch_init pins reads
        = some (st, if 0 < n then some (st.pins.getD 0 default).baseline else none) ∧
      st.numpins = n ∧ st.pins.length = n ∧ st.readings.length = n := by
  have hcount : count_pins pins 256 0 = some n :=
    count_pins_spec pins n hn hsent 256 0 (by omega) (by omega) (fun j _ h => hbefore j h)
  obtain ⟨a1, a2, a3⟩ := calibrate_frame reads
    { numpins := n, num_baseline_samples := 0,
      pins := for_each_pin (fun i p => { p with pin := pins.getD i 0xff }) n 0
        (List.replicate n default),
      readings := List.replicate n 0, nextSample := 0, next_baseline_sample := 0 }
    (by simp [for_each_pin_length])
  unfold multitouch_init
  rw [hcount]
  dsimp only
  have e2 : ∀ st0 : srv_state, (calibrate reads st0).2
      = if 0 < (calibrate reads st0).1.numpins
        then some ((calibrate reads st0).1.pins.getD 0 default).baseline else none :=
    fun _ => rfl
  have a4 := e2
    { numpins := n, num_baseline_samples := 0,
      pins := for_each_pin (fun i p => { p with pin := pins.getD i 0xff }) n 0
        (List.replicate n default),
      readings := List.replicate n 0, nextSample := 0, next_baseline_sample := 0 }
  rw [a1] at a4
  dsimp only at a1 a2 a3
  generalize calibrate reads _ = c at a1 a2 a3 a4 ⊢
  refine ⟨c.1, ?_, a1, a2, by rw [a3]; simp⟩
  rw [← a4]

/-- C14: `multitouch_init` on the empty pin list (only the sentinel `0xff`)
signals no error: it counts zero pads, runs the calibration over no pads and
comes back with an engine that has `numpins = 0`, no pads and no result
entries; on the way, the last line of `calibrate` reads `pins[0]`, which is
outside the (empty) array. -/
theorem multitouch_init_empty_list_fault :
    (multitouch_init [0xff] (fun _ _ _ => 0)).isSome = true ∧
    (multitouch_init [0xff] (fun _ _ _ => 0)).map (fun x => x.1.numpins) = some 0 ∧
    (multitouch_init [0xff] (fun _ _ _ => 0)).map (fun x => x.1.pins.length) = some 0 ∧
    (multitouch_init [0xff] (fun _ _ _ => 0)).map (fun x => x.1.readings.length) = some 0 ∧
    (multitouch_init [0xff] (fun _ _ _ => 0)).map (fun x => x.2) = some none := by
  set_option maxRecDepth 100000 in decide

end Multitouch
